import Mathlib

/-!
A verification development for the reflective JSON-schema derivation engine of
loki-mcp (vendor/github.com/ThinkInAIXYZ/go-mcp/protocol/schema_generate.go).

The Go source is shallowly embedded: `reflect.Type` values become the inductive
`GoType` (modelling types up to their reflection kind structure), struct fields
become `StructField`, the derived `Property` record becomes the nested inductive
`Property` (with `Option` distinguishing Go's nil map/slice from a present,
possibly empty one), and every fallible Go function returns `Except GoError`.
Machine integers are modelled as `Int`/`Nat` with explicit range checks where
the Go standard library checks ranges.
-/

namespace SchemaGen

/-- Embeds the Go `DataType` string constants (`object`, `number`, `integer`,
`string`, `array`, `null`, `boolean`). -/
inductive DataType where
  | object
  | number
  | integer
  | string
  | array
  | null
  | boolean
deriving DecidableEq, Repr

/-- A dynamic value stored in `Enum`/`Default` (Go `any`).  The Go code stores
`string`, `int`, `uint64`, `float64` or `bool` values.  Float values are
carried as their (already validated) literal text: the IEEE-754 bit-level
semantics of `strconv.ParseFloat` is outside the scope of this embedding, and
no property proved here inspects a float's numeric value. -/
inductive Value where
  | str (s : String)
  | int (n : Int)
  | uint (n : Nat)
  | float (lit : String)
  | bool (b : Bool)
deriving DecidableEq, Repr

/-- Embeds the Go `Property` struct.  `Option` fields model Go `nil` versus
present values: a `nil` map/slice/pointer is `none`, a present (possibly
empty) one is `some`.  `properties` is an association list standing for the Go
`map[string]*Property`; keys are kept unique by the insertion operation. -/
inductive Property where
  | mk (type : DataType) (description : String) (items : Option Property)
       (properties : Option (List (String × Property)))
       (required : Option (List String))
       (enum : Option (List Value))
       (defaultVal : Option Value)

def Property.type : Property → DataType
  | .mk t _ _ _ _ _ _ => t

def Property.description : Property → String
  | .mk _ d _ _ _ _ _ => d

def Property.items : Property → Option Property
  | .mk _ _ i _ _ _ _ => i

def Property.properties : Property → Option (List (String × Property))
  | .mk _ _ _ p _ _ _ => p

def Property.required : Property → Option (List String)
  | .mk _ _ _ _ r _ _ => r

def Property.enum : Property → Option (List Value)
  | .mk _ _ _ _ _ e _ => e

def Property.defaultVal : Property → Option Value
  | .mk _ _ _ _ _ _ d => d

/-- The distinct error results of the engine, one constructor per
`fmt.Errorf` site in the Go source, carrying the format arguments. -/
inductive GoError where
  /-- `"invalid type %v"` in `generateSchemaFromReqStruct`. -/
  | invalidType (t : String)
  /-- `"invalid required field %v: %v"`: the json name and the rejected
  literal of the `required` tag. -/
  | invalidRequiredField (name : String) (lit : String)
  /-- `"enum value %q is not compatible with integer type %v"`. -/
  | enumNotInt (value : String) (t : String)
  /-- `"enum value %q is not compatible with unsigned integer type %v"`. -/
  | enumNotUint (value : String) (t : String)
  /-- `"enum value %q is not compatible with float type %v"`. -/
  | enumNotFloat (value : String) (t : String)
  /-- `"enum value %q is not compatible with boolean type %v"`. -/
  | enumNotBool (value : String) (t : String)
  /-- `"unsupported type %v for enum validation"`. -/
  | unsupportedEnumType (t : String)
  /-- `"default value %q is not compatible with integer type %v"`. -/
  | defaultNotInt (value : String) (t : String)
  /-- `"default value %q is not compatible with unsigned integer type %v"`. -/
  | defaultNotUint (value : String) (t : String)
  /-- `"default value %q is not compatible with float type %v"`. -/
  | defaultNotFloat (value : String) (t : String)
  /-- `"default value %q is not compatible with boolean type %v"`. -/
  | defaultNotBool (value : String) (t : String)
  /-- `"duplicate property name %s in anonymous struct"`. -/
  | duplicateProperty (name : String)
  /-- `"map key type %s is not supported"`, naming the key kind. -/
  | mapKeyNotSupported (kind : String)
  /-- `"unsupported type: %s"`, naming the kind. -/
  | unsupportedType (kind : String)
  /-- Go run-time panic `reflect: NumField of non-struct type`, raised when
  `reflectSchemaByObject` receives a non-struct type (possible for an
  embedded field of non-struct type).  A panic aborts the derivation, which
  the embedding records as this error value. -/
  | numFieldPanic
deriving DecidableEq, Repr

/-! ### Go string primitives, embedded

The engine uses `strings.Split`, `strings.TrimSpace`, `strings.HasSuffix` and
`strings.TrimSuffix`.  They are embedded here as structurally recursive
functions over the character list of a string, so that every concrete
derivation in this file evaluates by reduction. -/

/-- One side of `strings.TrimSpace`: drop leading whitespace characters
(ASCII approximation of `unicode.IsSpace`). -/
def trimLeftChars : List Char → List Char
  | [] => []
  | c :: rest => if c.isWhitespace then trimLeftChars rest else c :: rest

/-- `strings.TrimSpace`. -/
def goTrim (s : String) : String :=
  ⟨(trimLeftChars ((trimLeftChars s.data.reverse).reverse))⟩

/-- Splits a character list at every comma (`strings.Split(v, ",")`). -/
def splitComma (cs : List Char) : List (List Char) :=
  match cs with
  | [] => [[]]
  | c :: rest =>
    let r := splitComma rest
    if c = ',' then [] :: r
    else (c :: r.headD []) :: r.tail

/-- `strings.Split(v, ",")`. -/
def goSplit (s : String) : List String :=
  (splitComma s.data).map (fun cs => ⟨cs⟩)

/-- `dropPrefixChars cs ps` removes the prefix `ps` from `cs`, or `none` when
`ps` is not a prefix. -/
def dropPrefixChars : List Char → List Char → Option (List Char)
  | cs, [] => some cs
  | [], _ :: _ => none
  | c :: cs, p :: ps => if c = p then dropPrefixChars cs ps else none

/-- `strings.HasSuffix`. -/
def goHasSuffix (s suffix : String) : Bool :=
  (dropPrefixChars s.data.reverse suffix.data.reverse).isSome

/-- `strings.TrimSuffix`: removes one occurrence of the suffix when present. -/
def goTrimSuffix (s suffix : String) : String :=
  match dropPrefixChars s.data.reverse suffix.data.reverse with
  | some rest => ⟨rest.reverse⟩
  | none => s

/-- `strings.ToLower` (ASCII approximation). -/
def goToLower (s : String) : String :=
  ⟨s.data.map Char.toLower⟩

/-! ### Go standard library `strconv` helpers, embedded

`strconv.ParseBool` accepts exactly twelve literals.  `strconv.Atoi` is
`ParseInt(s, 10, 0)` with the platform int being 64 bits: an optional sign
followed by one or more ASCII decimal digits (no underscores at base 10),
with an `int64` range check.  `strconv.ParseUint(s, 10, 64)` permits no sign
and checks the `uint64` range. -/

def goParseBool (s : String) : Option Bool :=
  match s with
  | "1" | "t" | "T" | "true" | "TRUE" | "True" => some true
  | "0" | "f" | "F" | "false" | "FALSE" | "False" => some false
  | _ => none

def digitsVal (ds : List Char) : Nat :=
  ds.foldl (fun a c => a * 10 + (c.toNat - 48)) 0

/-- `strconv.Atoi`. -/
def goAtoi (s : String) : Option Int :=
  let cs := s.data
  let signDigits : Int × List Char :=
    match cs with
    | '+' :: rest => (1, rest)
    | '-' :: rest => (-1, rest)
    | _ => (1, cs)
  let sign := signDigits.1
  let ds := signDigits.2
  if ds.isEmpty || !ds.all (fun c => c.isDigit) then none
  else
    let v : Int := sign * (digitsVal ds : Int)
    if -(2 ^ 63) ≤ v ∧ v < 2 ^ 63 then some v else none

/-- `strconv.ParseUint(s, 10, 64)`. -/
def goParseUint (s : String) : Option Nat :=
  let ds := s.data
  if ds.isEmpty || !ds.all (fun c => c.isDigit) then none
  else
    let v := digitsVal ds
    if v < 2 ^ 64 then some v else none

/-! ### `strconv.ParseFloat(s, 64)` syntax recognizer

The recognizer below follows the syntax accepted by `strconv.ParseFloat`:
the special forms (`inf`, `infinity` with optional sign, `nan` without sign,
case-insensitively), decimal mantissas with an optional fraction and optional
decimal exponent, hexadecimal mantissas with a mandatory binary exponent, and
digit-separating underscores placed only between digits or between the base
prefix and a digit.  Literals whose magnitude overflows the `float64` range
(which `ParseFloat` rejects with `ErrRange`) are accepted here: modelling the
exact IEEE-754 overflow boundary is outside the scope of this embedding and
no claim exercises it. -/

def isHexDigit (c : Char) : Bool :=
  c.isDigit || ('a' ≤ c.toLower && c.toLower ≤ 'f')

/-- The `underscoreOK` check of `strconv`: an underscore may appear only
between digits or between the base prefix and a digit. -/
def underscoreOK (s : List Char) : Bool :=
  let afterSign :=
    match s with
    | '+' :: rest => rest
    | '-' :: rest => rest
    | _ => s
  let prefixHex : Bool × List Char :=
    match afterSign with
    | '0' :: c :: rest =>
      if c.toLower = 'b' || c.toLower = 'o' || c.toLower = 'x' then
        (c.toLower = 'x', rest)
      else (false, afterSign)
    | _ => (false, afterSign)
  let hex := prefixHex.1
  let body := prefixHex.2
  -- saw: 0 = beginning (or base prefix, which counts as a digit),
  -- 1 = digit, 2 = underscore, 3 = other
  let startSaw : Nat :=
    match afterSign with
    | '0' :: c :: _ =>
      if c.toLower = 'b' || c.toLower = 'o' || c.toLower = 'x' then 1 else 0
    | _ => 0
  let step : Option Nat → Char → Option Nat := fun acc c =>
    match acc with
    | none => none
    | some saw =>
      if c.isDigit || (hex && isHexDigit c) then some 1
      else if c = '_' then (if saw = 1 then some 2 else none)
      else if saw = 2 then none
      else some 3
  match body.foldl step (some startSaw) with
  | none => false
  | some saw => saw ≠ 2

/-- A run of digits possibly containing underscores (validated globally by
`underscoreOK`); returns true when at least one digit is present. -/
def digitsRun (ds : List Char) (isDig : Char → Bool) : Bool :=
  ds.any isDig && ds.all (fun c => isDig c || c = '_')

/-- Splits `cs` at the first occurrence of a character satisfying `p`,
dropping that character; `none` when no such character occurs. -/
def splitAtChar (cs : List Char) (p : Char → Bool) : Option (List Char × List Char) :=
  match cs with
  | [] => none
  | c :: rest =>
    if p c then some ([], rest)
    else match splitAtChar rest p with
      | some pr => some (c :: pr.1, pr.2)
      | none => none

/-- Decimal (or, with `isDig = isHexDigit`, hexadecimal) mantissa: digits with
at most one point, at least one digit overall. -/
def mantissaOK (cs : List Char) (isDig : Char → Bool) : Bool :=
  match splitAtChar cs (fun c => c = '.') with
  | some pr =>
    (pr.1 ++ pr.2).any isDig &&
      (pr.1 ++ pr.2).all (fun c => isDig c || c = '_') &&
      !pr.2.any (fun c => c = '.')
  | none => digitsRun cs isDig

/-- Exponent part after `e`/`E`/`p`/`P`: optional sign then decimal digits. -/
def exponentOK (cs : List Char) : Bool :=
  let ds :=
    match cs with
    | '+' :: rest => rest
    | '-' :: rest => rest
    | _ => cs
  digitsRun ds (fun c => c.isDigit)

/-- `strconv.ParseFloat`'s `special`: case-insensitive `inf`/`infinity` with
optional sign, `nan` without sign. -/
def floatSpecial (s : String) : Bool :=
  let l := goToLower s
  l = "inf" || l = "+inf" || l = "-inf" ||
    l = "infinity" || l = "+infinity" || l = "-infinity" || l = "nan"

def goParseFloatOk (s : String) : Bool :=
  if floatSpecial s then true
  else
    let cs := s.data
    let body :=
      match cs with
      | '+' :: rest => rest
      | '-' :: rest => rest
      | _ => cs
    let okShape : Bool :=
      match body with
      | '0' :: x :: rest =>
        if x.toLower = 'x' then
          -- hexadecimal: mantissa then a mandatory p-exponent
          match splitAtChar rest (fun c => c.toLower = 'p') with
          | some pr => mantissaOK pr.1 isHexDigit && exponentOK pr.2
          | none => false
        else
          match splitAtChar body (fun c => c.toLower = 'e') with
          | some pr => mantissaOK pr.1 (fun c => c.isDigit) && exponentOK pr.2
          | none => mantissaOK body (fun c => c.isDigit)
      | _ =>
        match splitAtChar body (fun c => c.toLower = 'e') with
        | some pr => mantissaOK pr.1 (fun c => c.isDigit) && exponentOK pr.2
        | none => mantissaOK body (fun c => c.isDigit)
    okShape && (!cs.any (fun c => c = '_') || underscoreOK cs)

/-! ### The type model

`GoType` embeds `reflect.Type` up to its reflection-kind structure: the engine
inspects only `Kind()`, `Elem()`, `Key()`, `NumField()`/`Field(i)` and the
type's printed form, so named types are modelled by their underlying
structure.  `StructField` carries the field name, the `Anonymous` flag and
the parsed tag as an association list (`reflect.StructTag.Get` semantics:
absent keys read as `""`). -/

mutual
inductive GoType where
  | string
  | int
  | int8
  | int16
  | int32
  | int64
  | uint
  | uint8
  | uint16
  | uint32
  | uint64
  | float32
  | float64
  | bool
  | slice (elem : GoType)
  | array (size : Nat) (elem : GoType)
  | struct (fields : List StructField)
  | map (key : GoType) (elem : GoType)
  | ptr (elem : GoType)
  | chan
  | func
  | iface
  | complex64
  | complex128
  | uintptr
  | rawPointer
inductive StructField where
  | mk (name : String) (anonymous : Bool) (tag : List (String × String)) (type : GoType)
end

def StructField.name : StructField → String
  | .mk n _ _ _ => n

def StructField.anonymous : StructField → Bool
  | .mk _ a _ _ => a

def StructField.tag : StructField → List (String × String)
  | .mk _ _ tg _ => tg

def StructField.type : StructField → GoType
  | .mk _ _ _ t => t

/-- `reflect.Kind.String()` for each modelled kind. -/
def GoType.kindString : GoType → String
  | .string => "string"
  | .int => "int"
  | .int8 => "int8"
  | .int16 => "int16"
  | .int32 => "int32"
  | .int64 => "int64"
  | .uint => "uint"
  | .uint8 => "uint8"
  | .uint16 => "uint16"
  | .uint32 => "uint32"
  | .uint64 => "uint64"
  | .float32 => "float32"
  | .float64 => "float64"
  | .bool => "bool"
  | .slice _ => "slice"
  | .array _ _ => "array"
  | .struct _ => "struct"
  | .map _ _ => "map"
  | .ptr _ => "ptr"
  | .chan => "chan"
  | .func => "func"
  | .iface => "interface"
  | .complex64 => "complex64"
  | .complex128 => "complex128"
  | .uintptr => "uintptr"
  | .rawPointer => "unsafe.Pointer"

mutual
/-- `reflect.Type.String()` for the modelled (structural) types; used as the
`%v` rendering in error messages and as the cache key for unnamed types. -/
def GoType.toGoString : GoType → String
  | .slice e => "[]" ++ e.toGoString
  | .array n e => "[" ++ toString n ++ "]" ++ e.toGoString
  | .struct fields => "struct \x7b " ++ fieldListString fields ++ " \x7d"
  | .map k v => "map[" ++ k.toGoString ++ "]" ++ v.toGoString
  | .ptr e => "*" ++ e.toGoString
  | .string => "string"
  | .int => "int"
  | .int8 => "int8"
  | .int16 => "int16"
  | .int32 => "int32"
  | .int64 => "int64"
  | .uint => "uint"
  | .uint8 => "uint8"
  | .uint16 => "uint16"
  | .uint32 => "uint32"
  | .uint64 => "uint64"
  | .float32 => "float32"
  | .float64 => "float64"
  | .bool => "bool"
  | .chan => "chan"
  | .func => "func"
  | .iface => "interface"
  | .complex64 => "complex64"
  | .complex128 => "complex128"
  | .uintptr => "uintptr"
  | .rawPointer => "unsafe.Pointer"

def fieldListString : List StructField → String
  | [] => ""
  | [f] => fieldString f
  | f :: rest => fieldString f ++ "; " ++ fieldListString rest

def fieldString : StructField → String
  | .mk nm _ _ t => nm ++ " " ++ t.toGoString
end

/-- `reflect.StructField.IsExported`: the first character of the name is an
upper-case letter (ASCII approximation of `unicode.IsUpper`). -/
def isExported (s : String) : Bool :=
  match s.data with
  | [] => false
  | c :: _ => c.isUpper

/-- `reflect.StructTag.Get`: the value stored under `key`, or `""` when the
tag does not carry the key. -/
def tagGet (tag : List (String × String)) (key : String) : String :=
  match tag.find? (fun p => p.1 == key) with
  | some p => p.2
  | none => ""

/-! ### Go map operations on the `properties` association list -/

def mapHas (m : List (String × Property)) (k : String) : Bool :=
  m.any (fun p => p.1 == k)

def mapGet? (m : List (String × Property)) (k : String) : Option Property :=
  (m.find? (fun p => p.1 == k)).map (fun p => p.2)

/-- Go map assignment `m[k] = v`: replaces the binding when the key is
present, otherwise adds it. -/
def mapSet (m : List (String × Property)) (k : String) (v : Property) :
    List (String × Property) :=
  if mapHas m k then m.map (fun p => if p.1 == k then (k, v) else p)
  else m ++ [(k, v)]

def Property.withType : Property → DataType → Property
  | .mk _ d i p r e df, t => .mk t d i p r e df

def Property.withDescription : Property → String → Property
  | .mk t _ i p r e df, d => .mk t d i p r e df

def Property.withEnum : Property → List Value → Property
  | .mk t d i p r _ df, e => .mk t d i p r (some e) df

def Property.withDefault : Property → Value → Property
  | .mk t d i p r e _, df => .mk t d i p r e (some df)

/-- The kinds for which the enum/default tag conversion has a defined rule
(the non-`default` cases of the two conversion switches). -/
def isDirectPrimitive : GoType → Bool
  | .string | .int | .int8 | .int16 | .int32 | .int64
  | .uint | .uint8 | .uint16 | .uint32 | .uint64
  | .float32 | .float64 | .bool => true
  | _ => false

/-- One element of the `enum` tag conversion switch: converts the (already
trimmed) literal according to the field type's kind. -/
def enumConvert (t : GoType) (value : String) : Except GoError Value :=
  match t with
  | .string => .ok (.str value)
  | .int | .int8 | .int16 | .int32 | .int64 =>
    match goAtoi value with
    | some n => .ok (.int n)
    | none => .error (.enumNotInt value t.toGoString)
  | .uint | .uint8 | .uint16 | .uint32 | .uint64 =>
    match goParseUint value with
    | some n => .ok (.uint n)
    | none => .error (.enumNotUint value t.toGoString)
  | .float32 | .float64 =>
    if goParseFloatOk value then .ok (.float value)
    else .error (.enumNotFloat value t.toGoString)
  | .bool =>
    match goParseBool value with
    | some b => .ok (.bool b)
    | none => .error (.enumNotBool value t.toGoString)
  | _ => .error (.unsupportedEnumType t.toGoString)

/-- The `default` tag conversion switch: same rules as `enumConvert` except
that kinds with no conversion rule keep the raw tag text. -/
def defaultConvert (t : GoType) (value : String) : Except GoError Value :=
  match t with
  | .string => .ok (.str value)
  | .int | .int8 | .int16 | .int32 | .int64 =>
    match goAtoi value with
    | some n => .ok (.int n)
    | none => .error (.defaultNotInt value t.toGoString)
  | .uint | .uint8 | .uint16 | .uint32 | .uint64 =>
    match goParseUint value with
    | some n => .ok (.uint n)
    | none => .error (.defaultNotUint value t.toGoString)
  | .float32 | .float64 =>
    if goParseFloatOk value then .ok (.float value)
    else .error (.defaultNotFloat value t.toGoString)
  | .bool =>
    match goParseBool value with
    | some b => .ok (.bool b)
    | none => .error (.defaultNotBool value t.toGoString)
  | _ => .ok (.str value)

/-- The naming-tag computation for one explicit field: the external name and
the default requiredness.  Mirrors lines 95–106 of the source: take the
`json` tag, fall back to the field name when empty, and a trailing
`,omitempty` both strips the suffix and flips the default to optional. -/
def fieldNaming (f : StructField) : String × Bool :=
  let jsonTag := tagGet f.tag "json"
  let jsonTag := if jsonTag == "" then f.name else jsonTag
  if goHasSuffix jsonTag ",omitempty" then
    (goTrimSuffix jsonTag ",omitempty", false)
  else (jsonTag, true)

/-- The per-field tag processing applied after `reflectSchemaByType` returned
`item` (lines 113–205 of the source): attach the description, settle
requiredness (the `required` tag overrides the naming default and a malformed
boolean literal is an error), convert the `enum` tag (split on commas, trim
each literal, convert per kind, first failure errors), convert the `default`
tag.  Returns the external name, the final requiredness, and the finished
property.  The Go code inserts the property pointer into the map before the
`required`/`enum`/`default` tags are handled and then mutates it in place;
functionally that equals inserting the finished property, with errors raised
in the same order (required, then enum, then default). -/
def applyTags (f : StructField) (item : Property) : Except GoError (String × Bool × Property) := do
  let naming := fieldNaming f
  let name := naming.1
  let item1 :=
    let d := tagGet f.tag "description"
    if d ≠ "" then item.withDescription d else item
  let required ←
    (let s := tagGet f.tag "required"
     if s ≠ "" then
       match goParseBool s with
       | some b => Except.ok b
       | none => Except.error (GoError.invalidRequiredField name s)
     else Except.ok naming.2)
  let item2 ←
    (let v := tagGet f.tag "enum"
     if v ≠ "" then do
       let vals ← (goSplit v).mapM (fun x => enumConvert f.type (goTrim x))
       Except.ok (item1.withEnum vals)
     else Except.ok item1)
  let item3 ←
    (let dv := tagGet f.tag "default"
     if dv ≠ "" then do
       let x ← defaultConvert f.type dv
       Except.ok (item2.withDefault x)
     else Except.ok item2)
  Except.ok (name, required, item3)

/-- The merge loop over one embedded object's properties (lines 213–218): a
name already present in the parent is a `DuplicateProperty` error, otherwise
the property is added. -/
def mergeProps : List (String × Property) → List (String × Property) →
    Except GoError (List (String × Property))
  | [], props => .ok props
  | (name, val) :: rest, props =>
    if mapHas props name then .error (.duplicateProperty name)
    else mergeProps rest (mapSet props name val)

@[simp] theorem okBind {ε α β : Type} (a : α) (f : α → Except ε β) :
    (Except.ok a >>= f : Except ε β) = f a := rfl

@[simp] theorem errorBind {ε α β : Type} (e : ε) (f : α → Except ε β) :
    (Except.error e >>= f : Except ε β) = Except.error e := rfl

theorem StructField.sizeOf_type_lt (f : StructField) : sizeOf f.type < sizeOf f := by
  cases f with
  | mk n a tg t => simp [StructField.type]; try omega

theorem sizeOf_filter_le {α : Type} [SizeOf α] (p : α → Bool) (l : List α) :
    sizeOf (l.filter p) ≤ sizeOf l := by
  induction l with
  | nil => simp
  | cons x rest ih =>
    rw [List.filter_cons]
    cases p x <;> simp <;> omega

mutual
/-- Embeds `reflectSchemaByType` (lines 230–278): the kind classification. -/
def reflectSchemaByType : GoType → Except GoError Property
  | .string => .ok (.mk .string "" none none none none none)
  | .int => .ok (.mk .integer "" none none none none none)
  | .int8 => .ok (.mk .integer "" none none none none none)
  | .int16 => .ok (.mk .integer "" none none none none none)
  | .int32 => .ok (.mk .integer "" none none none none none)
  | .int64 => .ok (.mk .integer "" none none none none none)
  | .uint => .ok (.mk .integer "" none none none none none)
  | .uint8 => .ok (.mk .integer "" none none none none none)
  | .uint16 => .ok (.mk .integer "" none none none none none)
  | .uint32 => .ok (.mk .integer "" none none none none none)
  | .uint64 => .ok (.mk .integer "" none none none none none)
  | .float32 => .ok (.mk .number "" none none none none none)
  | .float64 => .ok (.mk .number "" none none none none none)
  | .bool => .ok (.mk .boolean "" none none none none none)
  | .slice e => do
    let items ← reflectSchemaByType e
    .ok (.mk .array "" (some items) none none none none)
  | .array _ e => do
    let items ← reflectSchemaByType e
    .ok (.mk .array "" (some items) none none none none)
  | .struct fields => do
    let object ← reflectObjectFields fields
    .ok (object.withType .object)
  | .map k _ =>
    match k with
    | .string => .ok (.mk .object "" none none none none none)
    | _ => .error (.mapKeyNotSupported k.kindString)
  | .ptr e => reflectSchemaByType e
  | .chan => .error (.unsupportedType GoType.chan.kindString)
  | .func => .error (.unsupportedType GoType.func.kindString)
  | .iface => .error (.unsupportedType GoType.iface.kindString)
  | .complex64 => .error (.unsupportedType GoType.complex64.kindString)
  | .complex128 => .error (.unsupportedType GoType.complex128.kindString)
  | .uintptr => .error (.unsupportedType GoType.uintptr.kindString)
  | .rawPointer => .error (.unsupportedType GoType.rawPointer.kindString)
termination_by t => 4 * sizeOf t
decreasing_by all_goals (simp_wf; try omega)

/-- Embeds `reflectSchemaByObject` (lines 76–228) applied to the field list
of a struct type: the explicit pass, then the deferred anonymous pass over
the anonymous fields in declaration order, then assembly. -/
def reflectObjectFields (fields : List StructField) : Except GoError Property := do
  let pr ← reflectExplicit fields [] []
  let pr2 ← reflectAnon (fields.filter (fun f => f.anonymous)) pr.1 pr.2
  .ok (.mk .object "" none (some pr2.1) (some pr2.2) none none)
termination_by 4 * sizeOf fields + 3
decreasing_by
  all_goals simp_wf
  all_goals (have h := sizeOf_filter_le (fun f : StructField => f.anonymous) fields; omega)

/-- The main field loop (lines 83–206): anonymous fields are set aside,
non-exported fields and fields tagged `json:"-"` are skipped, every other
field is reflected and its tags applied. -/
def reflectExplicit : List StructField → List (String × Property) → List String →
    Except GoError (List (String × Property) × List String)
  | [], props, req => .ok (props, req)
  | f :: rest, props, req =>
    if f.anonymous then reflectExplicit rest props req
    else if !isExported f.name then reflectExplicit rest props req
    else if tagGet f.tag "json" == "-" then reflectExplicit rest props req
    else do
      let item ← reflectSchemaByType f.type
      let r ← applyTags f item
      reflectExplicit rest (mapSet props r.1 r.2.2)
        (if r.2.1 then req ++ [r.1] else req)
termination_by fields _ _ => 4 * sizeOf fields + 1
decreasing_by
  all_goals simp_wf
  all_goals
    first
    | omega
    | (have h := StructField.sizeOf_type_lt f; omega)

/-- The anonymous-field loop (lines 208–220): each deferred field's type is
reflected as an object (`reflectSchemaByObject`, which panics on a non-struct
type), its properties merged with duplicate detection, and its required list
appended. -/
def reflectAnon : List StructField → List (String × Property) → List String →
    Except GoError (List (String × Property) × List String)
  | [], props, req => .ok (props, req)
  | f :: rest, props, req => do
    let object ← reflectSchemaByObject f.type
    let props2 ← mergeProps (object.properties.getD []) props
    reflectAnon rest props2 (req ++ object.required.getD [])
termination_by fields _ _ => 4 * sizeOf fields + 2
decreasing_by
  all_goals simp_wf
  all_goals (have hlt := StructField.sizeOf_type_lt f; omega)

/-- Embeds `reflectSchemaByObject` (lines 76–228) at an arbitrary type, as
called on an anonymous field's type: `t.NumField()` panics when `t` is not a
struct. -/
def reflectSchemaByObject : GoType → Except GoError Property
  | .struct fields => reflectObjectFields fields
  | .string => .error .numFieldPanic
  | .int => .error .numFieldPanic
  | .int8 => .error .numFieldPanic
  | .int16 => .error .numFieldPanic
  | .int32 => .error .numFieldPanic
  | .int64 => .error .numFieldPanic
  | .uint => .error .numFieldPanic
  | .uint8 => .error .numFieldPanic
  | .uint16 => .error .numFieldPanic
  | .uint32 => .error .numFieldPanic
  | .uint64 => .error .numFieldPanic
  | .float32 => .error .numFieldPanic
  | .float64 => .error .numFieldPanic
  | .bool => .error .numFieldPanic
  | .slice _ => .error .numFieldPanic
  | .array _ _ => .error .numFieldPanic
  | .map _ _ => .error .numFieldPanic
  | .ptr _ => .error .numFieldPanic
  | .chan => .error .numFieldPanic
  | .func => .error .numFieldPanic
  | .iface => .error .numFieldPanic
  | .complex64 => .error .numFieldPanic
  | .complex128 => .error .numFieldPanic
  | .uintptr => .error .numFieldPanic
  | .rawPointer => .error .numFieldPanic
termination_by t => 4 * sizeOf t
decreasing_by all_goals (simp_wf; try omega)
end

/-! ### Lemmas about the map operations and the merge loop -/

@[simp] theorem bindAssoc {ε α β γ : Type} (x : Except ε α) (f : α → Except ε β)
    (g : β → Except ε γ) : (x >>= f) >>= g = x >>= fun a => f a >>= g := by
  cases x <;> rfl

@[simp] theorem mapHas_nil (m : String) : mapHas [] m = false := rfl

@[simp] theorem mapHas_cons (p : String × Property) (ps : List (String × Property))
    (m : String) : mapHas (p :: ps) m = ((p.1 == m) || mapHas ps m) := rfl

theorem mapHas_iff (m : List (String × Property)) (k : String) :
    mapHas m k = true ↔ ∃ kv ∈ m, kv.1 = k := by
  simp [mapHas, List.any_eq_true, beq_iff_eq]

theorem mapHas_append (a b : List (String × Property)) (k : String) :
    mapHas (a ++ b) k = (mapHas a k || mapHas b k) := by
  simp [mapHas, List.any_append]

theorem mapSet_absent (props : List (String × Property)) (k : String) (v : Property)
    (h : mapHas props k = false) : mapSet props k v = props ++ [(k, v)] := by
  simp [mapSet, h]

theorem mapHas_map_replace (k : String) (v : Property) (m : String)
    (props : List (String × Property)) :
    mapHas (props.map (fun p => if p.1 == k then (k, v) else p)) m = mapHas props m := by
  induction props with
  | nil => rfl
  | cons p ps ih =>
    by_cases hp : (p.1 == k) = true
    · have hpk : p.1 = k := by simpa [beq_iff_eq] using hp
      simp only [List.map_cons, mapHas_cons, if_pos hp, ih]
      simp [hpk]
    · simp only [List.map_cons, mapHas_cons, if_neg hp, ih]

theorem mapSet_keys (props : List (String × Property)) (k : String) (v : Property)
    (hk : mapHas props k = true) (m : String) :
    mapHas (mapSet props k v) m = mapHas props m := by
  rw [mapSet, if_pos hk]
  exact mapHas_map_replace k v m props

theorem mapHas_mapSet_iff (props : List (String × Property)) (k : String) (v : Property)
    (m : String) : mapHas (mapSet props k v) m = true ↔ (mapHas props m = true ∨ m = k) := by
  by_cases hk : mapHas props k = true
  · rw [mapSet_keys props k v hk m]
    constructor
    · exact fun h => Or.inl h
    · rintro (h | rfl)
      · exact h
      · exact hk
  · rw [mapSet_absent props k v (by simpa using hk), mapHas_append]
    simp [beq_iff_eq, @eq_comm String k m]

theorem mergeProps_ok (em : List (String × Property)) :
    ∀ props out, mergeProps em props = Except.ok out →
      (∀ kv ∈ em, mapHas props kv.1 = false) ∧ out = props ++ em := by
  induction em with
  | nil =>
    intro props out h
    simp [mergeProps] at h
    simp [h]
  | cons nv rest ih =>
    intro props out h
    rw [mergeProps] at h
    by_cases hdup : mapHas props nv.1 = true
    · rw [show mapHas props nv.1 = true from hdup] at h
      simp at h
    · have hfalse : mapHas props nv.1 = false := by simpa using hdup
      rw [hfalse] at h
      simp only [Bool.false_eq_true, if_false] at h
      obtain ⟨hall, hout⟩ := ih (mapSet props nv.1 nv.2) out h
      refine ⟨?_, ?_⟩
      · intro kv hkv
        rcases List.mem_cons.mp hkv with hkv | hkv
        · simpa [hkv] using hfalse
        · by_cases hc : mapHas props kv.1 = true
          · exact absurd ((mapHas_mapSet_iff props nv.1 nv.2 kv.1).mpr (Or.inl hc))
              (by simp [hall kv hkv])
          · simpa using hc
      · rw [hout, mapSet_absent props nv.1 nv.2 hfalse]
        simp

theorem mergeProps_error_of_dup (em : List (String × Property)) :
    ∀ props, (∃ kv ∈ em, mapHas props kv.1 = true) →
      ∃ m, mergeProps em props = Except.error (GoError.duplicateProperty m) := by
  induction em with
  | nil =>
    intro props h
    simp at h
  | cons nv rest ih =>
    intro props h
    by_cases hdup : mapHas props nv.1 = true
    · refine ⟨nv.1, ?_⟩
      rw [mergeProps, hdup]
      simp
    · have hfalse : mapHas props nv.1 = false := by simpa using hdup
      rcases h with ⟨kv, hkv, hhas⟩
      rcases List.mem_cons.mp hkv with hkv | hkv
      · rw [hkv] at hhas
        exact absurd hhas (by simp [hfalse])
      · obtain ⟨m, hmerge⟩ :=
          ih (mapSet props nv.1 nv.2)
            ⟨kv, hkv, (mapHas_mapSet_iff props nv.1 nv.2 kv.1).mpr (Or.inl hhas)⟩
        refine ⟨m, ?_⟩
        rw [mergeProps, hfalse]
        simpa using hmerge

/-! ### Unfolding lemmas for the reflector loops -/

theorem reflectExplicit_nil (props : List (String × Property)) (req : List String) :
    reflectExplicit [] props req = .ok (props, req) := by
  simp [reflectExplicit]

theorem reflectExplicit_cons_skip (f : StructField) (rest : List StructField)
    (props : List (String × Property)) (req : List String)
    (h : f.anonymous = true ∨ isExported f.name = false ∨ tagGet f.tag "json" = "-") :
    reflectExplicit (f :: rest) props req = reflectExplicit rest props req := by
  rcases h with h | h | h
  · simp [reflectExplicit, h]
  · simp [reflectExplicit, h]
  · simp [reflectExplicit, h]

theorem reflectExplicit_cons_go (f : StructField) (rest : List StructField)
    (props : List (String × Property)) (req : List String)
    (h1 : f.anonymous = false) (h2 : isExported f.name = true)
    (h3 : ¬ tagGet f.tag "json" = "-") :
    reflectExplicit (f :: rest) props req =
      reflectSchemaByType f.type >>= fun item =>
      applyTags f item >>= fun r =>
      reflectExplicit rest (mapSet props r.1 r.2.2) (if r.2.1 then req ++ [r.1] else req) := by
  simp [reflectExplicit, h1, h2, h3]

theorem reflectAnon_nil (props : List (String × Property)) (req : List String) :
    reflectAnon [] props req = .ok (props, req) := by
  simp [reflectAnon]

theorem reflectAnon_cons (f : StructField) (rest : List StructField)
    (props : List (String × Property)) (req : List String) :
    reflectAnon (f :: rest) props req =
      reflectSchemaByObject f.type >>= fun object =>
      mergeProps (object.properties.getD []) props >>= fun props2 =>
      reflectAnon rest props2 (req ++ object.required.getD []) := by
  simp [reflectAnon]

theorem reflectObjectFields_eq (fields : List StructField) :
    reflectObjectFields fields =
      reflectExplicit fields [] [] >>= fun pr =>
      reflectAnon (fields.filter fun f => f.anonymous) pr.1 pr.2 >>= fun pr2 =>
      Except.ok (.mk .object "" none (some pr2.1) (some pr2.2) none none) := by
  simp [reflectObjectFields]

theorem reflectExplicit_append (pre rest : List StructField) :
    ∀ props req, reflectExplicit (pre ++ rest) props req =
      reflectExplicit pre props req >>= fun pr => reflectExplicit rest pr.1 pr.2 := by
  induction pre with
  | nil =>
    intro props req
    simp [reflectExplicit_nil]
  | cons f pre ih =>
    intro props req
    by_cases h1 : f.anonymous = true
    · rw [List.cons_append, reflectExplicit_cons_skip f _ _ _ (Or.inl h1),
        reflectExplicit_cons_skip f _ _ _ (Or.inl h1), ih]
    · by_cases h2 : isExported f.name = true
      · by_cases h3 : tagGet f.tag "json" = "-"
        · rw [List.cons_append, reflectExplicit_cons_skip f _ _ _ (Or.inr (Or.inr h3)),
            reflectExplicit_cons_skip f _ _ _ (Or.inr (Or.inr h3)), ih]
        · rw [List.cons_append,
            reflectExplicit_cons_go f _ _ _ (by simpa using h1) h2 h3,
            reflectExplicit_cons_go f _ _ _ (by simpa using h1) h2 h3]
          cases hA : reflectSchemaByType f.type with
          | error e => simp
          | ok item =>
            cases hB : applyTags f item with
            | error e => simp [hB]
            | ok r => simp [hB, ih]
      · rw [List.cons_append,
          reflectExplicit_cons_skip f _ _ _ (Or.inr (Or.inl (by simpa using h2))),
          reflectExplicit_cons_skip f _ _ _ (Or.inr (Or.inl (by simpa using h2))), ih]

/-! ### The required-names invariant: every required name is a property key -/

theorem reflectExplicit_inv (fields : List StructField) :
    ∀ props req props' req',
      reflectExplicit fields props req = .ok (props', req') →
      (∀ n, mapHas props n = true → mapHas props' n = true) ∧
      (∀ n, n ∈ req' → n ∈ req ∨ mapHas props' n = true) := by
  induction fields with
  | nil =>
    intro props req props' req' h
    rw [reflectExplicit_nil] at h
    simp only [Except.ok.injEq, Prod.mk.injEq] at h
    obtain ⟨hp, hr⟩ := h
    subst hp
    subst hr
    exact ⟨fun n hn => hn, fun n hn => Or.inl hn⟩
  | cons f rest ih =>
    intro props req props' req' h
    by_cases h1 : f.anonymous = true
    · rw [reflectExplicit_cons_skip f _ _ _ (Or.inl h1)] at h
      exact ih _ _ _ _ h
    · by_cases h2 : isExported f.name = true
      · by_cases h3 : tagGet f.tag "json" = "-"
        · rw [reflectExplicit_cons_skip f _ _ _ (Or.inr (Or.inr h3))] at h
          exact ih _ _ _ _ h
        · rw [reflectExplicit_cons_go f _ _ _ (by simpa using h1) h2 h3] at h
          cases hA : reflectSchemaByType f.type with
          | error e => simp [hA] at h
          | ok item =>
            rw [hA] at h
            simp only [okBind] at h
            cases hB : applyTags f item with
            | error e => simp [hB] at h
            | ok r =>
              rw [hB] at h
              simp only [okBind] at h
              obtain ⟨mono, hreq⟩ := ih _ _ _ _ h
              refine ⟨?_, ?_⟩
              · intro n hn
                exact mono n ((mapHas_mapSet_iff props r.1 r.2.2 n).mpr (Or.inl hn))
              · intro n hn
                rcases hreq n hn with hmem | hhas
                · by_cases hr : r.2.1 = true
                  · rw [if_pos hr] at hmem
                    rcases List.mem_append.mp hmem with hmem | hmem
                    · exact Or.inl hmem
                    · have : n = r.1 := by simpa using hmem
                      refine Or.inr (mono n ?_)
                      exact (mapHas_mapSet_iff props r.1 r.2.2 n).mpr (Or.inr this)
                  · rw [if_neg hr] at hmem
                    exact Or.inl hmem
                · exact Or.inr hhas
      · rw [reflectExplicit_cons_skip f _ _ _ (Or.inr (Or.inl (by simpa using h2)))] at h
        exact ih _ _ _ _ h

theorem reflectSchemaByObject_ok_struct (t : GoType) (object : Property)
    (h : reflectSchemaByObject t = Except.ok object) :
    ∃ fields2, t = GoType.struct fields2 ∧ reflectObjectFields fields2 = Except.ok object := by
  cases t <;> simp [reflectSchemaByObject] at h
  exact ⟨_, rfl, h⟩

mutual
theorem reflectAnon_inv (afields : List StructField) :
    ∀ props req props' req',
      reflectAnon afields props req = .ok (props', req') →
      (∀ n, mapHas props n = true → mapHas props' n = true) ∧
      (∀ n, n ∈ req' → n ∈ req ∨ mapHas props' n = true) := by
  cases afields with
  | nil =>
    intro props req props' req' h
    rw [reflectAnon_nil] at h
    simp only [Except.ok.injEq, Prod.mk.injEq] at h
    obtain ⟨hp, hr⟩ := h
    subst hp
    subst hr
    exact ⟨fun n hn => hn, fun n hn => Or.inl hn⟩
  | cons f rest =>
    intro props req props' req' h
    rw [reflectAnon_cons] at h
    cases hO : reflectSchemaByObject f.type with
    | error e => simp [hO] at h
    | ok object =>
      rw [hO] at h
      simp only [okBind] at h
      cases hM : mergeProps (object.properties.getD []) props with
      | error e => simp [hM] at h
      | ok props2 =>
        rw [hM] at h
        simp only [okBind] at h
        obtain ⟨mono, hreq⟩ := reflectAnon_inv rest _ _ _ _ h
        obtain ⟨habsent, hprops2⟩ := mergeProps_ok (object.properties.getD []) props props2 hM
        refine ⟨?_, ?_⟩
        · intro n hn
          refine mono n ?_
          rw [hprops2, mapHas_append]
          simp [hn]
        · intro n hn
          rcases hreq n hn with hmem | hhas
          · rcases List.mem_append.mp hmem with hmem | hmem
            · exact Or.inl hmem
            · -- n comes from the embedded object's required list
              obtain ⟨fields2, hft, hObj⟩ := reflectSchemaByObject_ok_struct f.type object hO
              have hsz : sizeOf fields2 < sizeOf f := by
                have hlt := StructField.sizeOf_type_lt f
                rw [hft] at hlt
                simp at hlt
                omega
              have hsub := reflectObjectFields_required_sub fields2 object hObj n hmem
              refine Or.inr (mono n ?_)
              rw [hprops2, mapHas_append]
              simp [hsub]
          · exact Or.inr hhas
termination_by 4 * sizeOf afields + 2
decreasing_by all_goals (simp_wf; try omega)

theorem reflectObjectFields_required_sub (fields : List StructField) (p : Property) :
    reflectObjectFields fields = .ok p →
    ∀ n, n ∈ p.required.getD [] → mapHas (p.properties.getD []) n = true := by
  intro h n hn
  rw [reflectObjectFields_eq] at h
  cases hE : reflectExplicit fields [] [] with
  | error e => simp [hE] at h
  | ok pr =>
    rw [hE] at h
    simp only [okBind] at h
    cases hA : reflectAnon (fields.filter fun f => f.anonymous) pr.1 pr.2 with
    | error e => simp [hA] at h
    | ok pr2 =>
      rw [hA] at h
      simp only [okBind, Except.ok.injEq] at h
      subst h
      simp only [Property.required, Property.properties, Option.getD] at hn ⊢
      obtain ⟨monoE, hreqE⟩ := reflectExplicit_inv fields [] [] pr.1 pr.2 (by
        cases pr
        exact hE)
      obtain ⟨monoA, hreqA⟩ := reflectAnon_inv _ pr.1 pr.2 pr2.1 pr2.2 (by
        cases pr2
        exact hA)
      rcases hreqA n hn with hmem | hhas
      · rcases hreqE n hmem with hmem2 | hhas2
        · simp at hmem2
        · exact monoA n hhas2
      · exact hhas
termination_by 4 * sizeOf fields + 3
decreasing_by
  all_goals simp_wf
  all_goals (have hf := sizeOf_filter_le (fun f : StructField => f.anonymous) fields; omega)
end

/-- Modelled from the spec: the repository's `InputSchema` type (declared
outside the provided sources) — the Root Schema, always of object kind,
holding only the properties and the required list. -/
structure InputSchema where
  type : DataType
  properties : Option (List (String × Property))
  required : Option (List String)

/-- Embeds `getTypeUUID` (lines 68–74).  The model carries no named types
(types are modelled up to structure), so every type takes the
`t.String()` fallback branch for unnamed types. -/
def getTypeUUID (t : GoType) : String :=
  t.toGoString

/-- Modelled from the spec: the process-wide `pkg.SyncMap` cache (declared
outside the provided sources) — a mapping from type identity keys to
completed Root Schemas with `Load`/`Store`; its concurrency aspect is outside
the scope of this embedding, so it is modelled as an explicit association
list threaded through the entry point. -/
def Cache := List (String × InputSchema)

def cacheLoad (c : Cache) (k : String) : Option InputSchema :=
  ((c : List (String × InputSchema)).find? (fun p => p.1 == k)).map (fun p => p.2)

def cacheStore (c : Cache) (k : String) (v : InputSchema) : Cache :=
  ((c : List (String × InputSchema)).filter (fun p => !(p.1 == k))) ++ [(k, v)]

/-- Embeds the pointer-unwrapping loop of `generateSchemaFromReqStruct`
(lines 41–47): unwrap `Ptr` until a struct is reached, any other kind is
`invalid type %v`. -/
def resolveStructType : GoType → Except GoError GoType
  | .struct fields => .ok (.struct fields)
  | .ptr e => resolveStructType e
  | t => .error (.invalidType t.toGoString)

/-- Embeds `generateSchemaFromReqStruct` (lines 40–66), with the cache passed
explicitly: resolve the struct type, return a cache hit immediately, else
reflect the object, and store the assembled schema only on success. -/
def generateSchemaFromReqStruct (cache : Cache) (t : GoType) :
    Cache × Except GoError InputSchema :=
  match resolveStructType t with
  | .error e => (cache, .error e)
  | .ok t' =>
    let typeUID := getTypeUUID t'
    match cacheLoad cache typeUID with
    | some schema => (cache, .ok schema)
    | none =>
      match reflectSchemaByObject t' with
      | .error e => (cache, .error e)
      | .ok property =>
        let schema : InputSchema :=
          ⟨.object, property.properties, property.required⟩
        (cacheStore cache typeUID schema, .ok schema)

/-- The per-node part of the schema-tree invariant: an object-kind node
carries no `items` and no `enum`, and declares `properties` exactly when it
declares `required` (both for struct-derived objects, neither for map-derived
ones).  `default` is deliberately unconstrained: a `default` tag may attach a
raw default to an object node. -/
def objNodeOk (p : Property) : Prop :=
  p.type = DataType.object →
    p.items = none ∧ p.enum = none ∧ (p.properties.isSome ↔ p.required.isSome)

/-- The schema-tree invariant, holding at a node and hereditarily at its
`items` child and all of its `properties` children. -/
inductive TreeInv : Property → Prop where
  | node (p : Property) :
      objNodeOk p →
      (∀ q, p.items = some q → TreeInv q) →
      (∀ n q, (n, q) ∈ p.properties.getD [] → TreeInv q) →
      TreeInv p

/-! ### Accessor lemmas for the property updaters -/

@[simp] theorem withDescription_type (p : Property) (d : String) :
    (p.withDescription d).type = p.type := by cases p; rfl

@[simp] theorem withDescription_items (p : Property) (d : String) :
    (p.withDescription d).items = p.items := by cases p; rfl

@[simp] theorem withDescription_properties (p : Property) (d : String) :
    (p.withDescription d).properties = p.properties := by cases p; rfl

@[simp] theorem withDescription_required (p : Property) (d : String) :
    (p.withDescription d).required = p.required := by cases p; rfl

@[simp] theorem withDescription_enum (p : Property) (d : String) :
    (p.withDescription d).enum = p.enum := by cases p; rfl

@[simp] theorem withDescription_defaultVal (p : Property) (d : String) :
    (p.withDescription d).defaultVal = p.defaultVal := by cases p; rfl

@[simp] theorem withEnum_type (p : Property) (e : List Value) :
    (p.withEnum e).type = p.type := by cases p; rfl

@[simp] theorem withEnum_items (p : Property) (e : List Value) :
    (p.withEnum e).items = p.items := by cases p; rfl

@[simp] theorem withEnum_properties (p : Property) (e : List Value) :
    (p.withEnum e).properties = p.properties := by cases p; rfl

@[simp] theorem withEnum_required (p : Property) (e : List Value) :
    (p.withEnum e).required = p.required := by cases p; rfl

@[simp] theorem withEnum_enum (p : Property) (e : List Value) :
    (p.withEnum e).enum = some e := by cases p; rfl

@[simp] theorem withEnum_defaultVal (p : Property) (e : List Value) :
    (p.withEnum e).defaultVal = p.defaultVal := by cases p; rfl

@[simp] theorem withDefault_type (p : Property) (x : Value) :
    (p.withDefault x).type = p.type := by cases p; rfl

@[simp] theorem withDefault_items (p : Property) (x : Value) :
    (p.withDefault x).items = p.items := by cases p; rfl

@[simp] theorem withDefault_properties (p : Property) (x : Value) :
    (p.withDefault x).properties = p.properties := by cases p; rfl

@[simp] theorem withDefault_required (p : Property) (x : Value) :
    (p.withDefault x).required = p.required := by cases p; rfl

@[simp] theorem withDefault_enum (p : Property) (x : Value) :
    (p.withDefault x).enum = p.enum := by cases p; rfl

@[simp] theorem withDefault_defaultVal (p : Property) (x : Value) :
    (p.withDefault x).defaultVal = some x := by cases p; rfl

@[simp] theorem withType_type (p : Property) (t : DataType) :
    (p.withType t).type = t := by cases p; rfl

@[simp] theorem withType_items (p : Property) (t : DataType) :
    (p.withType t).items = p.items := by cases p; rfl

@[simp] theorem withType_properties (p : Property) (t : DataType) :
    (p.withType t).properties = p.properties := by cases p; rfl

@[simp] theorem withType_required (p : Property) (t : DataType) :
    (p.withType t).required = p.required := by cases p; rfl

@[simp] theorem withType_enum (p : Property) (t : DataType) :
    (p.withType t).enum = p.enum := by cases p; rfl

@[simp] theorem withType_defaultVal (p : Property) (t : DataType) :
    (p.withType t).defaultVal = p.defaultVal := by cases p; rfl

/-! ### Splitting and `mapM` lemmas -/

theorem splitComma_ne_nil (cs : List Char) : splitComma cs ≠ [] := by
  cases cs with
  | nil => simp [splitComma]
  | cons c rest =>
    rw [splitComma]
    by_cases hc : c = ','
    · simp [hc]
    · simp [hc]

theorem goSplit_ne_nil (s : String) : goSplit s ≠ [] := by
  simp only [goSplit]
  intro h
  exact splitComma_ne_nil s.data (by simpa using h)

theorem mapM_loop_eq {ε α β : Type} (g : α → Except ε β) :
    ∀ (cs : List α) (acc : List β),
      List.mapM.loop g cs acc = (cs.mapM g) >>= fun bs => .ok (acc.reverse ++ bs) := by
  intro cs
  induction cs with
  | nil =>
    intro acc
    simp [List.mapM, List.mapM.loop]
    rfl
  | cons c rest ih =>
    intro acc
    rw [List.mapM, List.mapM.loop, List.mapM.loop]
    cases hg : g c with
    | error e => simp
    | ok b =>
      simp only [okBind]
      rw [ih (b :: acc), ih [b]]
      cases rest.mapM g with
      | error e => simp
      | ok bs => simp

theorem mapM_cons {ε α β : Type} (g : α → Except ε β) (c : α) (cs : List α) :
    (c :: cs).mapM g = g c >>= fun b => cs.mapM g >>= fun bs => .ok (b :: bs) := by
  rw [List.mapM, List.mapM.loop]
  cases hg : g c with
  | error e => simp
  | ok b =>
    simp only [okBind]
    rw [mapM_loop_eq g cs [b]]
    cases cs.mapM g with
    | error e => simp
    | ok bs => simp

/-- A general inversion principle for a successful `Except` bind. -/
theorem bind_ok_inv {ε α β : Type} (x : Except ε α) (g : α → Except ε β) (b : β)
    (h : x >>= g = .ok b) : ∃ a, x = .ok a ∧ g a = .ok b := by
  cases x with
  | error e => simp at h
  | ok a => exact ⟨a, rfl, by simpa using h⟩

/-! ## Claim C7 -/

/-- C7: for every keyed-mapping type, a string key yields a bare object-kind
property with no declared properties and no declared required list regardless
of the value type, and a non-string key fails with the unsupported-map-key
error naming the key kind. -/
theorem C7_map_key (k v : GoType) :
    (reflectSchemaByType (GoType.map GoType.string v) =
      .ok (.mk .object "" none none none none none)) ∧
    (k ≠ GoType.string →
      reflectSchemaByType (GoType.map k v) =
        .error (.mapKeyNotSupported k.kindString)) := by
  constructor
  · simp [reflectSchemaByType]
  · intro hk
    cases k <;> simp [reflectSchemaByType]
    exact absurd rfl hk

/-- Witness for C7 at a concrete non-string key. -/
theorem C7_map_key_witness :
    GoType.int ≠ GoType.string ∧
    reflectSchemaByType (GoType.map GoType.int GoType.string) =
      .error (.mapKeyNotSupported "int") :=
  ⟨by simp, (C7_map_key GoType.int GoType.string).2 (by simp)⟩

/-! ## Claim C9 -/

/-- C9: when any recursive step fails, the error is returned to the top level
with no schema, the cache is left unchanged, and a repeated call with the
same type reflects afresh, returning the identical result instead of a cached
failure. -/
theorem C9_no_caching_of_failures :
    (∀ (cache : Cache) (t : GoType) (e : GoError),
      resolveStructType t = .error e →
      generateSchemaFromReqStruct cache t = (cache, .error e)) ∧
    (∀ (cache : Cache) (t t' : GoType) (e : GoError),
      resolveStructType t = .ok t' →
      cacheLoad cache (getTypeUUID t') = none →
      reflectSchemaByObject t' = .error e →
      generateSchemaFromReqStruct cache t = (cache, .error e)) ∧
    (∀ (cache : Cache) (t t' : GoType) (e : GoError),
      resolveStructType t = .ok t' →
      cacheLoad cache (getTypeUUID t') = none →
      reflectSchemaByObject t' = .error e →
      generateSchemaFromReqStruct (generateSchemaFromReqStruct cache t).1 t =
        generateSchemaFromReqStruct cache t) := by
  refine ⟨?_, ?_, ?_⟩
  · intro cache t e hres
    simp [generateSchemaFromReqStruct, hres]
  · intro cache t t' e hres hload hrefl
    simp [generateSchemaFromReqStruct, hres, hload, hrefl]
  · intro cache t t' e hres hload hrefl
    have h2 : generateSchemaFromReqStruct cache t = (cache, .error e) := by
      simp [generateSchemaFromReqStruct, hres, hload, hrefl]
    rw [h2]
    exact h2

/-- Witness for C9: a struct with a channel-typed field fails, caches
nothing, and fails identically when called again. -/
theorem C9_no_caching_of_failures_witness :
    resolveStructType (.struct [ .mk "C" false [] .chan ]) =
      .ok (.struct [ .mk "C" false [] .chan ]) ∧
    cacheLoad [] (getTypeUUID (.struct [ .mk "C" false [] .chan ])) = none ∧
    reflectSchemaByObject (.struct [ .mk "C" false [] .chan ]) =
      .error (.unsupportedType "chan") ∧
    generateSchemaFromReqStruct [] (.struct [ .mk "C" false [] .chan ]) =
      ([], .error (.unsupportedType "chan")) := by
  have hres : resolveStructType (.struct [ .mk "C" false [] .chan ]) =
      .ok (.struct [ .mk "C" false [] .chan ]) := by
    simp [resolveStructType]
  have hload : cacheLoad [] (getTypeUUID (.struct [ .mk "C" false [] .chan ])) = none := by
    simp [cacheLoad]
  have hrefl : reflectSchemaByObject (.struct [ .mk "C" false [] .chan ]) =
      .error (.unsupportedType "chan") := by
    simp [reflectSchemaByObject, reflectObjectFields, reflectExplicit, reflectAnon,
      reflectSchemaByType, StructField.anonymous, StructField.name, StructField.tag,
      StructField.type, isExported, tagGet, List.find?, List.filter, GoType.kindString]
  exact ⟨hres, hload, hrefl,
    C9_no_caching_of_failures.2.1 [] _ _ _ hres hload hrefl⟩

/-! ## Claim C1 -/

/-- C1 (amended): a non-exported field that is not anonymous is skipped
entirely — removing it from the struct leaves the derivation unchanged.
(The original claim extended this to anonymous fields; the counterexample
shows the anonymous check precedes the visibility check.) -/
theorem C1_nonexported_nonanonymous_skipped (pre post : List StructField) (f : StructField)
    (hanon : f.anonymous = false) (hexp : isExported f.name = false) :
    reflectObjectFields (pre ++ f :: post) = reflectObjectFields (pre ++ post) := by
  have hstep : ∀ props req, reflectExplicit (f :: post) props req =
      reflectExplicit post props req :=
    fun props req => reflectExplicit_cons_skip f post props req (Or.inr (Or.inl hexp))
  have hfilter : (pre ++ f :: post).filter (fun g => g.anonymous) =
      (pre ++ post).filter (fun g => g.anonymous) := by
    simp [List.filter_append, List.filter_cons, hanon]
  rw [reflectObjectFields_eq, reflectObjectFields_eq,
    reflectExplicit_append pre (f :: post), reflectExplicit_append pre post, hfilter]
  have hmid : (reflectExplicit pre [] [] >>= fun pr => reflectExplicit (f :: post) pr.1 pr.2) =
      (reflectExplicit pre [] [] >>= fun pr => reflectExplicit post pr.1 pr.2) := by
    cases reflectExplicit pre [] [] <;> simp [hstep]
  rw [hmid]

/-- Witness for C1's amended statement at a concrete struct. -/
theorem C1_nonexported_nonanonymous_skipped_witness :
    (StructField.mk "secret" false [] GoType.int).anonymous = false ∧
    isExported (StructField.mk "secret" false [] GoType.int).name = false ∧
    reflectObjectFields [ .mk "secret" false [] .int, .mk "Y" false [] .bool ] =
      reflectObjectFields [ .mk "Y" false [] .bool ] :=
  ⟨rfl, rfl,
    C1_nonexported_nonanonymous_skipped [] [ .mk "Y" false [] .bool ]
      (.mk "secret" false [] .int) rfl rfl⟩

/-- Counterexample to C1 as stated: a NON-exported field that is marked
anonymous is not skipped — the anonymous check precedes the visibility
check, so its type is flattened and contributes the property `X`. -/
theorem C1_counterexample :
    isExported (StructField.mk "inner" true []
      (.struct [ .mk "X" false [] .string ])).name = false ∧
    (StructField.mk "inner" true [] (.struct [ .mk "X" false [] .string ])).anonymous = true ∧
    reflectObjectFields [ .mk "inner" true [] (.struct [ .mk "X" false [] .string ]) ] =
      .ok (.mk .object "" none
        (some [("X", .mk .string "" none none none none none)]) (some ["X"]) none none) := by
  refine ⟨rfl, rfl, ?_⟩
  simp [reflectObjectFields, reflectExplicit, reflectAnon, reflectSchemaByObject,
    reflectSchemaByType, applyTags, fieldNaming, tagGet, isExported, mapSet, mapHas,
    mergeProps, enumConvert, defaultConvert, Property.withDescription, Property.properties,
    Property.required, StructField.name, StructField.anonymous, StructField.tag,
    StructField.type, List.find?, List.filter, goParseBool, goHasSuffix, goTrimSuffix,
    dropPrefixChars]

/-! ## Claim C3 -/

theorem find?_map_replace (k : String) (v : Property) :
    ∀ props : List (String × Property), mapHas props k = true →
      List.find? (fun p => p.1 == k) (props.map (fun p => if p.1 == k then (k, v) else p)) =
        some (k, v) := by
  intro props
  induction props with
  | nil => intro hk; simp at hk
  | cons p ps ih =>
    intro hk
    by_cases hp : (p.1 == k) = true
    · rw [List.map_cons, if_pos hp, List.find?_cons_of_pos _ (by simp)]
    · have hk' : mapHas ps k = true := by simpa [hp] using hk
      rw [List.map_cons, if_neg hp, List.find?_cons_of_neg _ (by simpa using hp), ih hk']

theorem mapGet?_append_absent (k : String) (v : Property) :
    ∀ props : List (String × Property), mapHas props k = false →
      mapGet? (props ++ [(k, v)]) k = some v := by
  intro props
  induction props with
  | nil => intro _; simp [mapGet?, List.find?]
  | cons p ps ih =>
    intro hk
    have hp : (p.1 == k) = false := by
      by_cases h : (p.1 == k) = true
      · simp [h] at hk
      · simpa using h
    have hk' : mapHas ps k = false := by
      by_cases h : mapHas ps k = true
      · simp [h] at hk
      · simpa using h
    rw [List.cons_append]
    simp only [mapGet?] at ih ⊢
    rw [List.find?_cons_of_neg _ (by simpa using hp)]
    exact ih hk'

theorem mapGet?_mapSet (props : List (String × Property)) (k : String) (v : Property) :
    mapGet? (mapSet props k v) k = some v := by
  by_cases hk : mapHas props k = true
  · rw [mapSet, if_pos hk]
    simp only [mapGet?]
    rw [find?_map_replace k v props hk]
    rfl
  · rw [mapSet_absent props k v (by simpa using hk)]
    exact mapGet?_append_absent k v props (by simpa using hk)

/-- C3 (amended): a collision between an embedded field's property name and a
name already present makes the merge (and hence the derivation) fail with
`DuplicateProperty`, and a successful merge touched no existing name; a
collision between two explicit fields, however, silently overrides — Go map
assignment makes the later property win. -/
theorem C3_duplicate_handling :
    (∀ (f : StructField) (rest : List StructField) props req object,
      reflectSchemaByObject f.type = .ok object →
      (∃ kv ∈ object.properties.getD [], mapHas props kv.1 = true) →
      ∃ m, reflectAnon (f :: rest) props req = .error (.duplicateProperty m)) ∧
    (∀ em props out, mergeProps em props = Except.ok out →
      ∀ kv ∈ em, mapHas props kv.1 = false) ∧
    (∀ props k v, mapGet? (mapSet props k v) k = some v) := by
  refine ⟨?_, ?_, ?_⟩
  · intro f rest props req object hO hdup
    rw [reflectAnon_cons, hO]
    simp only [okBind]
    obtain ⟨m, hm⟩ := mergeProps_error_of_dup (object.properties.getD []) props hdup
    exact ⟨m, by rw [hm]; simp⟩
  · intro em props out h
    exact (mergeProps_ok em props out h).1
  · intro props k v
    exact mapGet?_mapSet props k v

/-- Witness for C3's amended statement: merging an embedded object that
declares `X` into a parent that already has `X` reports the duplicate. -/
theorem C3_duplicate_handling_witness :
    reflectSchemaByObject (.struct [ .mk "X" false [] .int ]) =
      .ok (.mk .object "" none
        (some [("X", .mk .integer "" none none none none none)]) (some ["X"]) none none) ∧
    (∃ m, reflectAnon [ .mk "E" true [] (.struct [ .mk "X" false [] .int ]) ]
        [("X", .mk .string "" none none none none none)] [] =
      .error (.duplicateProperty m)) := by
  have hO : reflectSchemaByObject (.struct [ .mk "X" false [] .int ]) =
      .ok (.mk .object "" none
        (some [("X", .mk .integer "" none none none none none)]) (some ["X"]) none none) := by
    simp [reflectSchemaByObject, reflectObjectFields, reflectExplicit, reflectAnon,
      reflectSchemaByType, applyTags, fieldNaming, tagGet, isExported, mapSet, mapHas,
      mergeProps, enumConvert, defaultConvert, Property.withDescription, StructField.name,
      StructField.anonymous, StructField.tag, StructField.type, List.find?, List.filter,
      goParseBool, goHasSuffix, goTrimSuffix, dropPrefixChars]
  refine ⟨hO, ?_⟩
  exact C3_duplicate_handling.1 _ [] _ [] _ hO
    ⟨("X", .mk .integer "" none none none none none), by simp [Property.properties], by simp⟩

/-- Counterexample to C3 as stated: two explicit fields carrying the same
`json` name derive successfully — no error — and the second field's property
silently overrides the first (the shared name maps to the integer property of
field `B`, the string property of `A` is gone). -/
theorem C3_counterexample :
    reflectObjectFields
        [ .mk "A" false [("json", "x")] .string, .mk "B" false [("json", "x")] .int ] =
      .ok (.mk .object "" none
        (some [("x", .mk .integer "" none none none none none)])
        (some ["x", "x"]) none none) := by
  simp [reflectObjectFields, reflectExplicit, reflectAnon, reflectSchemaByType, applyTags,
    fieldNaming, tagGet, isExported, mapSet, mapHas, mergeProps, enumConvert, defaultConvert,
    Property.withDescription, StructField.name, StructField.anonymous, StructField.tag,
    StructField.type, List.find?, List.filter, goParseBool, goHasSuffix, goTrimSuffix,
    dropPrefixChars]

/-! ## Claim C2 -/

/-- C2: embedded/anonymous fields are deferred and processed after all
explicit fields; each is processed in declaration order by reflecting its
type as an object, merging its properties into the parent (collisions handled
by the merge loop), and appending its required list — whose members are
exactly merged names that were required in the embedded type. -/
theorem C2_embedded_deferred :
    (∀ fields, reflectObjectFields fields =
      reflectExplicit fields [] [] >>= fun pr =>
      reflectAnon (fields.filter fun f => f.anonymous) pr.1 pr.2 >>= fun pr2 =>
      Except.ok (.mk .object "" none (some pr2.1) (some pr2.2) none none)) ∧
    (∀ (f : StructField) rest props req, reflectAnon (f :: rest) props req =
      reflectSchemaByObject f.type >>= fun object =>
      mergeProps (object.properties.getD []) props >>= fun props2 =>
      reflectAnon rest props2 (req ++ object.required.getD [])) ∧
    (∀ em props out, mergeProps em props = Except.ok out → out = props ++ em) ∧
    (∀ fields p, reflectObjectFields fields = .ok p →
      ∀ n ∈ p.required.getD [], mapHas (p.properties.getD []) n = true) := by
  refine ⟨?_, ?_, ?_, ?_⟩
  · exact reflectObjectFields_eq
  · exact reflectAnon_cons
  · intro em props out h
    exact (mergeProps_ok em props out h).2
  · exact reflectObjectFields_required_sub

/-- Witness for C2 at the spec's embedding example: a struct embedding a type
with fields `A` (required) and `B` (optional) and declaring its own `C`. -/
theorem C2_embedded_deferred_witness :
    reflectObjectFields
        [ .mk "emb" true []
            (.struct [ .mk "A" false [] .string, .mk "B" false [("json", "b,omitempty")] .int ]),
          .mk "C" false [] .bool ] =
      .ok (.mk .object "" none
        (some [("C", .mk .boolean "" none none none none none),
               ("A", .mk .string "" none none none none none),
               ("b", .mk .integer "" none none none none none)])
        (some ["C", "A"]) none none) ∧
    (∀ n ∈ ["C", "A"],
      mapHas [("C", Property.mk .boolean "" none none none none none),
              ("A", Property.mk .string "" none none none none none),
              ("b", Property.mk .integer "" none none none none none)] n = true) := by
  have h : reflectObjectFields
        [ .mk "emb" true []
            (.struct [ .mk "A" false [] .string, .mk "B" false [("json", "b,omitempty")] .int ]),
          .mk "C" false [] .bool ] =
      .ok (.mk .object "" none
        (some [("C", .mk .boolean "" none none none none none),
               ("A", .mk .string "" none none none none none),
               ("b", .mk .integer "" none none none none none)])
        (some ["C", "A"]) none none) := by
    simp [reflectObjectFields, reflectExplicit, reflectAnon, reflectSchemaByObject,
      reflectSchemaByType, applyTags, fieldNaming, tagGet, isExported, mapSet, mapHas,
      mergeProps, enumConvert, defaultConvert, Property.withDescription, Property.properties,
      Property.required, StructField.name, StructField.anonymous, StructField.tag,
      StructField.type, List.find?, List.filter, goParseBool, goHasSuffix, goTrimSuffix,
      dropPrefixChars]
  refine ⟨h, ?_⟩
  exact C2_embedded_deferred.2.2.2 _ _ h

/-! ## Claim C4 -/

/-- Decomposition of a successful `applyTags`: the external name is the one
computed by the naming step, and the requiredness is the `required` tag's
parsed boolean when the tag is present, else the naming default. -/
theorem applyTags_ok_required (f : StructField) (item : Property)
    (name : String) (r : Bool) (item' : Property)
    (h : applyTags f item = .ok (name, r, item')) :
    name = (fieldNaming f).1 ∧
    (tagGet f.tag "required" = "" → r = (fieldNaming f).2) ∧
    (tagGet f.tag "required" ≠ "" → goParseBool (tagGet f.tag "required") = some r) := by
  simp only [applyTags] at h
  by_cases hs : tagGet f.tag "required" = ""
  · rw [hs] at h
    rw [if_neg (by simp)] at h
    simp only [okBind] at h
    obtain ⟨item2, hE, h2⟩ := bind_ok_inv _ _ _ h
    obtain ⟨item3, hD, h3⟩ := bind_ok_inv _ _ _ h2
    simp only [Except.ok.injEq, Prod.mk.injEq] at h3
    exact ⟨h3.1.symm, fun _ => h3.2.1.symm, fun hne => absurd hs hne⟩
  · rw [if_pos hs] at h
    cases hp : goParseBool (tagGet f.tag "required") with
    | none => rw [hp] at h; simp at h
    | some b =>
      rw [hp] at h
      simp only [okBind] at h
      obtain ⟨item2, hE, h2⟩ := bind_ok_inv _ _ _ h
      obtain ⟨item3, hD, h3⟩ := bind_ok_inv _ _ _ h2
      simp only [Except.ok.injEq, Prod.mk.injEq] at h3
      refine ⟨h3.1.symm, fun he => absurd he hs, fun _ => ?_⟩
      rw [h3.2.1]

/-- C4: an explicit field is required by default; the `,omitempty` suffix on
the naming tag makes it optional; a non-empty `required` tag's parsed boolean
literal overrides that default; a malformed boolean literal is an error; and
the field joins the object's required list exactly when the final
requiredness is true. -/
theorem C4_requiredness (f : StructField) (item : Property) :
    ((fieldNaming f).2 =
      !(goHasSuffix (if tagGet f.tag "json" == "" then f.name else tagGet f.tag "json")
          ",omitempty")) ∧
    (tagGet f.tag "required" = "" →
      ∀ name r item', applyTags f item = .ok (name, r, item') → r = (fieldNaming f).2) ∧
    (∀ b, tagGet f.tag "required" ≠ "" →
      goParseBool (tagGet f.tag "required") = some b →
      ∀ name r item', applyTags f item = .ok (name, r, item') → r = b) ∧
    (tagGet f.tag "required" ≠ "" → goParseBool (tagGet f.tag "required") = none →
      applyTags f item =
        .error (.invalidRequiredField (fieldNaming f).1 (tagGet f.tag "required"))) ∧
    (∀ rest props req name r item',
      f.anonymous = false → isExported f.name = true → tagGet f.tag "json" ≠ "-" →
      reflectSchemaByType f.type = .ok item → applyTags f item = .ok (name, r, item') →
      reflectExplicit (f :: rest) props req =
        reflectExplicit rest (mapSet props name item')
          (if r then req ++ [name] else req)) := by
  refine ⟨?_, ?_, ?_, ?_, ?_⟩
  · simp only [fieldNaming]
    split
    · cases hS : goHasSuffix f.name ",omitempty" <;> simp [hS]
    · cases hS : goHasSuffix (tagGet f.tag "json") ",omitempty" <;> simp [hS]
  · intro hrt name r item' hok
    exact ((applyTags_ok_required f item name r item' hok).2.1 hrt)
  · intro b hne hb name r item' hok
    have := (applyTags_ok_required f item name r item' hok).2.2 hne
    rw [hb] at this
    simpa using this.symm
  · intro hne hnone
    simp only [applyTags]
    rw [if_pos hne, hnone]
    simp
  · intro rest props req name r item' hanon hexp hjson hitem happly
    rw [reflectExplicit_cons_go f rest props req hanon hexp hjson, hitem]
    simp only [okBind]
    rw [happly]
    simp only [okBind]

/-- Witness for C4: a `required:"false"` tag overrides an otherwise-required
string field, and the explicit step records the property without adding the
name to the required list. -/
theorem C4_requiredness_witness :
    tagGet (StructField.mk "A" false [("required", "false")] .string).tag "required" ≠ "" ∧
    goParseBool "false" = some false ∧
    applyTags (.mk "A" false [("required", "false")] .string)
        (.mk .string "" none none none none none) =
      .ok ("A", false, .mk .string "" none none none none none) ∧
    (false : Bool) = false := by
  have ht : tagGet (StructField.mk "A" false [("required", "false")] .string).tag
      "required" = "false" := by
    simp [tagGet, StructField.tag, List.find?]
  have happ : applyTags (.mk "A" false [("required", "false")] .string)
        (.mk .string "" none none none none none) =
      .ok ("A", false, .mk .string "" none none none none none) := by
    simp [applyTags, fieldNaming, tagGet, StructField.tag, StructField.name,
      StructField.type, List.find?, goParseBool, goHasSuffix, goTrimSuffix, dropPrefixChars,
      Property.withDescription]
  refine ⟨by simp [ht], rfl, happ, ?_⟩
  exact C4_requiredness (.mk "A" false [("required", "false")] .string)
      (.mk .string "" none none none none none) |>.2.2.1 false (by simp [ht])
      (by rw [ht]; rfl) "A" false _ happ

/-! ## Claims C5, C8, C10: tag conversion -/

theorem enumConvert_nonprim (t : GoType) (h : isDirectPrimitive t = false) (s : String) :
    enumConvert t s = .error (.unsupportedEnumType t.toGoString) := by
  cases t <;> first | rfl | (simp [isDirectPrimitive] at h)

theorem defaultConvert_nonprim (t : GoType) (h : isDirectPrimitive t = false) (s : String) :
    defaultConvert t s = .ok (.str s) := by
  cases t <;> first | rfl | (simp [isDirectPrimitive] at h)

/-- The default-tag step of `applyTags` never changes the enum slot. -/
theorem defaultStep_enum (f : StructField) (item2 item3 : Property)
    (hD : (if tagGet f.tag "default" ≠ "" then
        defaultConvert f.type (tagGet f.tag "default") >>= fun x =>
          Except.ok (item2.withDefault x)
      else Except.ok item2) = Except.ok item3) :
    item3.enum = item2.enum := by
  split at hD
  · obtain ⟨x, hdc, hok⟩ := bind_ok_inv _ _ _ hD
    simp only [Except.ok.injEq] at hok
    rw [← hok]
    simp
  · simp only [Except.ok.injEq] at hD
    rw [← hD]

theorem applyTags_ok_enum (f : StructField) (item : Property)
    (name : String) (r : Bool) (item' : Property)
    (hv : tagGet f.tag "enum" ≠ "")
    (h : applyTags f item = .ok (name, r, item')) :
    ∃ vals, ((goSplit (tagGet f.tag "enum")).mapM
        (fun x => enumConvert f.type (goTrim x))) = .ok vals ∧
      item'.enum = some vals := by
  simp only [applyTags] at h
  obtain ⟨r0, hR, h1⟩ := bind_ok_inv _ _ _ h
  rw [if_pos hv] at h1
  simp only [bindAssoc] at h1
  obtain ⟨vals, hmapM, h2⟩ := bind_ok_inv _ _ _ h1
  simp only [okBind] at h2
  obtain ⟨item3, hD, h3⟩ := bind_ok_inv _ _ _ h2
  simp only [Except.ok.injEq, Prod.mk.injEq] at h3
  have henum := defaultStep_enum f _ _ hD
  refine ⟨vals, hmapM, ?_⟩
  rw [← h3.2.2, henum]
  simp

theorem applyTags_enum_error (f : StructField) (item : Property) (e : GoError)
    (hreq : tagGet f.tag "required" = "")
    (hv : tagGet f.tag "enum" ≠ "")
    (hmapM : ((goSplit (tagGet f.tag "enum")).mapM
        (fun x => enumConvert f.type (goTrim x))) = .error e) :
    applyTags f item = .error e := by
  simp only [applyTags]
  rw [hreq, if_neg (by simp)]
  simp only [okBind]
  rw [if_pos hv]
  simp only [bindAssoc]
  rw [hmapM]
  simp

/-- C5: the enum tag is split on commas, each literal trimmed and converted
according to the field's kind — strings pass through, signed/unsigned
integers parse base-10, floats parse as floating point, booleans parse as
boolean literals — the converted values become the enum list in order, and a
conversion failure yields an error naming the offending literal and the
target kind; `enum:"1,2,3"` on an integer field yields integers and
`enum:"1,x,3"` on an integer field is an error. -/
theorem C5_enum_conversion :
    (∀ s, enumConvert GoType.string s = .ok (.str s)) ∧
    (∀ s n, goAtoi s = some n → enumConvert GoType.int s = .ok (.int n)) ∧
    (∀ s, goAtoi s = none →
      enumConvert GoType.int s = .error (.enumNotInt s "int")) ∧
    (∀ s n, goParseUint s = some n → enumConvert GoType.uint s = .ok (.uint n)) ∧
    (∀ s, goParseUint s = none →
      enumConvert GoType.uint s = .error (.enumNotUint s "uint")) ∧
    (∀ s, goParseFloatOk s = true → enumConvert GoType.float64 s = .ok (.float s)) ∧
    (∀ s b, goParseBool s = some b → enumConvert GoType.bool s = .ok (.bool b)) ∧
    (∀ (f : StructField) (item : Property) name r item',
      tagGet f.tag "enum" ≠ "" →
      applyTags f item = .ok (name, r, item') →
      ∃ vals, ((goSplit (tagGet f.tag "enum")).mapM
          (fun x => enumConvert f.type (goTrim x))) = .ok vals ∧
        item'.enum = some vals) ∧
    (∀ (f : StructField) (item : Property) e,
      tagGet f.tag "required" = "" → tagGet f.tag "enum" ≠ "" →
      ((goSplit (tagGet f.tag "enum")).mapM
          (fun x => enumConvert f.type (goTrim x))) = .error e →
      applyTags f item = .error e) ∧
    (reflectObjectFields [ .mk "N" false [("enum", "1,2,3")] .int ] =
      .ok (.mk .object "" none
        (some [("N", .mk .integer "" none none none
          (some [.int 1, .int 2, .int 3]) none)]) (some ["N"]) none none)) ∧
    (reflectObjectFields [ .mk "N" false [("enum", "1,x,3")] .int ] =
      .error (.enumNotInt "x" "int")) := by
  refine ⟨fun s => rfl, ?_, ?_, ?_, ?_, ?_, ?_, ?_, ?_, ?_, ?_⟩
  · intro s n h; simp [enumConvert, h]
  · intro s h; simp [enumConvert, h, GoType.toGoString]
  · intro s n h; simp [enumConvert, h]
  · intro s h; simp [enumConvert, h, GoType.toGoString]
  · intro s h; simp [enumConvert, h]
  · intro s b h; simp [enumConvert, h]
  · exact fun f item name r item' => applyTags_ok_enum f item name r item'
  · exact fun f item e => applyTags_enum_error f item e
  · simp [reflectObjectFields, reflectExplicit, reflectAnon, reflectSchemaByType, applyTags,
      fieldNaming, tagGet, isExported, mapSet, mapHas, mergeProps, enumConvert, defaultConvert,
      Property.withDescription, Property.withEnum, Property.withDefault, StructField.name,
      StructField.anonymous, StructField.tag,
      StructField.type, List.find?, List.filter, goParseBool, goHasSuffix, goTrimSuffix,
      dropPrefixChars, goSplit, splitComma, goTrim, trimLeftChars, goAtoi, digitsVal,
      List.mapM, List.mapM.loop]
  · simp [reflectObjectFields, reflectExplicit, reflectAnon, reflectSchemaByType, applyTags,
      fieldNaming, tagGet, isExported, mapSet, mapHas, mergeProps, enumConvert, defaultConvert,
      Property.withDescription, Property.withEnum, Property.withDefault, StructField.name,
      StructField.anonymous, StructField.tag,
      StructField.type, List.find?, List.filter, goParseBool, goHasSuffix, goTrimSuffix,
      dropPrefixChars, goSplit, splitComma, goTrim, trimLeftChars, goAtoi, digitsVal,
      List.mapM, List.mapM.loop, GoType.toGoString, GoType.kindString]

/-- Witness for C5's conditional parts at a concrete boolean field. -/
theorem C5_enum_conversion_witness :
    goAtoi "7" = some 7 ∧ enumConvert GoType.int "7" = .ok (.int 7) ∧
    tagGet (StructField.mk "B" false [("enum", "true,false")] .bool).tag "enum" ≠ "" ∧
    applyTags (.mk "B" false [("enum", "true,false")] .bool)
        (.mk .boolean "" none none none none none) =
      .ok ("B", true, .mk .boolean "" none none none
        (some [.bool true, .bool false]) none) ∧
    (∃ vals, ((goSplit "true,false").mapM
        (fun x => enumConvert GoType.bool (goTrim x))) = .ok vals ∧
      (Property.mk .boolean "" none none none
        (some [Value.bool true, Value.bool false]) none).enum = some vals) := by
  have happ : applyTags (.mk "B" false [("enum", "true,false")] .bool)
        (.mk .boolean "" none none none none none) =
      .ok ("B", true, .mk .boolean "" none none none
        (some [.bool true, .bool false]) none) := by
    simp [applyTags, fieldNaming, tagGet, StructField.tag, StructField.name, StructField.type,
      List.find?, goParseBool, goHasSuffix, goTrimSuffix, dropPrefixChars, enumConvert,
      defaultConvert, Property.withDescription, Property.withEnum, goSplit, splitComma,
      goTrim, trimLeftChars, List.mapM, List.mapM.loop]
  refine ⟨rfl, C5_enum_conversion.2.1 "7" 7 rfl, by simp [tagGet, StructField.tag, List.find?],
    happ, ?_⟩
  exact C5_enum_conversion.2.2.2.2.2.2.2.1 (.mk "B" false [("enum", "true,false")] .bool)
    (.mk .boolean "" none none none none none) "B" true _
    (by simp [tagGet, StructField.tag, List.find?]) happ

/-! ### Default-tag decomposition -/

theorem applyTags_ok_default (f : StructField) (item : Property)
    (name : String) (r : Bool) (item' : Property)
    (hdv : tagGet f.tag "default" ≠ "")
    (h : applyTags f item = .ok (name, r, item')) :
    ∃ x, defaultConvert f.type (tagGet f.tag "default") = .ok x ∧
      item'.defaultVal = some x := by
  simp only [applyTags] at h
  obtain ⟨r0, hR, h1⟩ := bind_ok_inv _ _ _ h
  obtain ⟨item2, hE, h2⟩ := bind_ok_inv _ _ _ h1
  rw [if_pos hdv] at h2
  simp only [bindAssoc] at h2
  obtain ⟨x, hdc, h3⟩ := bind_ok_inv _ _ _ h2
  simp only [okBind, Except.ok.injEq, Prod.mk.injEq] at h3
  refine ⟨x, hdc, ?_⟩
  rw [← h3.2.2]
  simp

theorem applyTags_default_error (f : StructField) (item : Property) (e : GoError)
    (hreq : tagGet f.tag "required" = "")
    (henum : tagGet f.tag "enum" = "")
    (hdv : tagGet f.tag "default" ≠ "")
    (hdc : defaultConvert f.type (tagGet f.tag "default") = .error e) :
    applyTags f item = .error e := by
  simp only [applyTags]
  rw [hreq, if_neg (by simp)]
  simp only [okBind]
  rw [henum, if_neg (by simp)]
  simp only [okBind]
  rw [if_pos hdv, hdc]
  simp

/-- C8: the default tag's single literal is converted by the same per-kind
rules as enum values (failure errors, naming the literal and the kind), but
every kind with no conversion rule keeps the raw tag text verbatim as the
default and the derivation does not fail on it. -/
theorem C8_default_conversion :
    (∀ s, defaultConvert GoType.string s = .ok (.str s)) ∧
    (∀ s n, goAtoi s = some n → defaultConvert GoType.int s = .ok (.int n)) ∧
    (∀ s, goAtoi s = none →
      defaultConvert GoType.int s = .error (.defaultNotInt s "int")) ∧
    (∀ s n, goParseUint s = some n → defaultConvert GoType.uint s = .ok (.uint n)) ∧
    (∀ s, goParseFloatOk s = true → defaultConvert GoType.float64 s = .ok (.float s)) ∧
    (∀ s b, goParseBool s = some b → defaultConvert GoType.bool s = .ok (.bool b)) ∧
    (∀ t s, isDirectPrimitive t = false → defaultConvert t s = .ok (.str s)) ∧
    (∀ (f : StructField) (item : Property) name r item',
      tagGet f.tag "default" ≠ "" →
      applyTags f item = .ok (name, r, item') →
      ∃ x, defaultConvert f.type (tagGet f.tag "default") = .ok x ∧
        item'.defaultVal = some x) ∧
    (∀ (f : StructField) (item : Property) e,
      tagGet f.tag "required" = "" → tagGet f.tag "enum" = "" →
      tagGet f.tag "default" ≠ "" →
      defaultConvert f.type (tagGet f.tag "default") = .error e →
      applyTags f item = .error e) ∧
    (reflectObjectFields [ .mk "N" false [("default", "5")] .int ] =
      .ok (.mk .object "" none
        (some [("N", .mk .integer "" none none none none (some (.int 5)))])
        (some ["N"]) none none)) ∧
    (reflectObjectFields [ .mk "N" false [("default", "x")] .int ] =
      .error (.defaultNotInt "x" "int")) ∧
    (reflectObjectFields [ .mk "S" false [("default", "x")] (.slice .int) ] =
      .ok (.mk .object "" none
        (some [("S", .mk .array ""
          (some (.mk .integer "" none none none none none)) none none none
          (some (.str "x")))])
        (some ["S"]) none none)) := by
  refine ⟨fun s => rfl, ?_, ?_, ?_, ?_, ?_, ?_, ?_, ?_, ?_, ?_, ?_⟩
  · intro s n h; simp [defaultConvert, h]
  · intro s h; simp [defaultConvert, h, GoType.toGoString]
  · intro s n h; simp [defaultConvert, h]
  · intro s h; simp [defaultConvert, h]
  · intro s b h; simp [defaultConvert, h]
  · exact fun t s h => defaultConvert_nonprim t h s
  · exact fun f item name r item' => applyTags_ok_default f item name r item'
  · exact fun f item e => applyTags_default_error f item e
  · simp [reflectObjectFields, reflectExplicit, reflectAnon, reflectSchemaByType, applyTags,
      fieldNaming, tagGet, isExported, mapSet, mapHas, mergeProps, enumConvert, defaultConvert,
      Property.withDescription, Property.withEnum, Property.withDefault, StructField.name,
      StructField.anonymous, StructField.tag,
      StructField.type, List.find?, List.filter, goParseBool, goHasSuffix, goTrimSuffix,
      dropPrefixChars, goSplit, splitComma, goTrim, trimLeftChars, goAtoi, digitsVal,
      List.mapM, List.mapM.loop]
  · simp [reflectObjectFields, reflectExplicit, reflectAnon, reflectSchemaByType, applyTags,
      fieldNaming, tagGet, isExported, mapSet, mapHas, mergeProps, enumConvert, defaultConvert,
      Property.withDescription, Property.withEnum, Property.withDefault, StructField.name,
      StructField.anonymous, StructField.tag,
      StructField.type, List.find?, List.filter, goParseBool, goHasSuffix, goTrimSuffix,
      dropPrefixChars, goSplit, splitComma, goTrim, trimLeftChars, goAtoi, digitsVal,
      List.mapM, List.mapM.loop, GoType.toGoString, GoType.kindString]
  · simp [reflectObjectFields, reflectExplicit, reflectAnon, reflectSchemaByType, applyTags,
      fieldNaming, tagGet, isExported, mapSet, mapHas, mergeProps, enumConvert, defaultConvert,
      Property.withDescription, Property.withEnum, Property.withDefault, StructField.name,
      StructField.anonymous, StructField.tag,
      StructField.type, List.find?, List.filter, goParseBool, goHasSuffix, goTrimSuffix,
      dropPrefixChars, goSplit, splitComma, goTrim, trimLeftChars, goAtoi, digitsVal,
      List.mapM, List.mapM.loop]

/-- Witness for C8's conditional parts: a pointer kind keeps the raw text. -/
theorem C8_default_conversion_witness :
    isDirectPrimitive (GoType.ptr GoType.int) = false ∧
    defaultConvert (GoType.ptr GoType.int) "raw" = .ok (.str "raw") ∧
    goAtoi "5" = some 5 ∧ defaultConvert GoType.int "5" = .ok (.int 5) :=
  ⟨rfl, C8_default_conversion.2.2.2.2.2.2.1 (GoType.ptr GoType.int) "raw" rfl,
    rfl, C8_default_conversion.2.1 "5" 5 rfl⟩

/-! ## Claim C10 -/

theorem applyTags_unsupported_enum (f : StructField) (item : Property)
    (hprim : isDirectPrimitive f.type = false)
    (hreq : tagGet f.tag "required" = "")
    (hv : tagGet f.tag "enum" ≠ "") :
    applyTags f item = .error (.unsupportedEnumType f.type.toGoString) := by
  apply applyTags_enum_error f item _ hreq hv
  obtain ⟨c, cs, hsplit⟩ : ∃ c cs, goSplit (tagGet f.tag "enum") = c :: cs := by
    cases hs : goSplit (tagGet f.tag "enum") with
    | nil => exact absurd hs (goSplit_ne_nil _)
    | cons c cs => exact ⟨c, cs, rfl⟩
  rw [hsplit, mapM_cons, enumConvert_nonprim f.type hprim (goTrim c)]
  simp

/-- C10: a non-empty enum tag on a field whose declared type's kind is not a
direct primitive — a pointer to a string, a slice, a nested struct, a map —
fails the derivation with the unsupported-type-for-enum-validation error,
even when the field's type itself reflects successfully (pointer
transparency does not apply to enum conversion). -/
theorem C10_enum_requires_direct_primitive :
    (∀ (f : StructField) (rest : List StructField) props req (item : Property),
      isDirectPrimitive f.type = false →
      tagGet f.tag "required" = "" → tagGet f.tag "enum" ≠ "" →
      f.anonymous = false → isExported f.name = true → tagGet f.tag "json" ≠ "-" →
      reflectSchemaByType f.type = .ok item →
      reflectExplicit (f :: rest) props req =
        .error (.unsupportedEnumType f.type.toGoString)) ∧
    (reflectSchemaByType (.ptr .string) = .ok (.mk .string "" none none none none none)) := by
  constructor
  · intro f rest props req item hprim hreq hv hanon hexp hjson hitem
    rw [reflectExplicit_cons_go f rest props req hanon hexp hjson, hitem]
    simp only [okBind]
    rw [applyTags_unsupported_enum f item hprim hreq hv]
    simp
  · simp [reflectSchemaByType]

/-- Witness for C10: an exported pointer-to-string field with an enum tag
aborts the derivation although pointer-to-string itself is a supported
type. -/
theorem C10_enum_requires_direct_primitive_witness :
    reflectSchemaByType (GoType.ptr GoType.string) =
      .ok (.mk .string "" none none none none none) ∧
    reflectExplicit [ .mk "P" false [("enum", "a,b")] (.ptr .string) ] [] [] =
      .error (.unsupportedEnumType (GoType.ptr GoType.string).toGoString) := by
  have hitem : reflectSchemaByType (GoType.ptr GoType.string) =
      .ok (.mk .string "" none none none none none) := by
    simp [reflectSchemaByType]
  refine ⟨hitem, ?_⟩
  exact C10_enum_requires_direct_primitive.1 (.mk "P" false [("enum", "a,b")] (.ptr .string))
    [] [] [] _ rfl (by simp [tagGet, StructField.tag, List.find?])
    (by simp [tagGet, StructField.tag, List.find?]) rfl rfl
    (by simp [tagGet, StructField.tag, List.find?]) hitem

/-! ## Claim C6: the object-node invariant over the derived schema tree -/

theorem TreeInv.inv {p : Property} (h : TreeInv p) :
    objNodeOk p ∧ (∀ q, p.items = some q → TreeInv q) ∧
    (∀ n q, (n, q) ∈ p.properties.getD [] → TreeInv q) := by
  cases h with
  | node _ a b c => exact ⟨a, b, c⟩

theorem TreeInv_withDescription {p : Property} (d : String) (h : TreeInv p) :
    TreeInv (p.withDescription d) := by
  obtain ⟨hok, hit, hpr⟩ := h.inv
  refine TreeInv.node _ ?_ ?_ ?_
  · intro ht
    simp only [withDescription_type] at ht
    simpa using hok ht
  · intro q hq
    simp only [withDescription_items] at hq
    exact hit q hq
  · intro n q hq
    simp only [withDescription_properties] at hq
    exact hpr n q hq

theorem TreeInv_withDefault {p : Property} (x : Value) (h : TreeInv p) :
    TreeInv (p.withDefault x) := by
  obtain ⟨hok, hit, hpr⟩ := h.inv
  refine TreeInv.node _ ?_ ?_ ?_
  · intro ht
    simp only [withDefault_type] at ht
    simpa using hok ht
  · intro q hq
    simp only [withDefault_items] at hq
    exact hit q hq
  · intro n q hq
    simp only [withDefault_properties] at hq
    exact hpr n q hq

theorem TreeInv_withEnum_nonobj {p : Property} (vals : List Value)
    (ht : p.type ≠ DataType.object) (h : TreeInv p) : TreeInv (p.withEnum vals) := by
  obtain ⟨hok, hit, hpr⟩ := h.inv
  refine TreeInv.node _ ?_ ?_ ?_
  · intro hobj
    simp only [withEnum_type] at hobj
    exact absurd hobj ht
  · intro q hq
    simp only [withEnum_items] at hq
    exact hit q hq
  · intro n q hq
    simp only [withEnum_properties] at hq
    exact hpr n q hq

theorem enumConvert_ok_prim (t : GoType) (s : String) (val : Value)
    (h : enumConvert t s = .ok val) : isDirectPrimitive t = true := by
  cases t <;> first | rfl | (simp [enumConvert] at h)

theorem byType_prim_shape (t : GoType) (hprim : isDirectPrimitive t = true)
    (item : Property) (h : reflectSchemaByType t = .ok item) :
    item.type ≠ DataType.object ∧ item.items = none ∧ item.properties = none ∧
      item.enum = none := by
  cases t <;>
    first
    | (simp only [reflectSchemaByType, Except.ok.injEq] at h
       subst h
       exact ⟨by simp [Property.type], rfl, rfl, rfl⟩)
    | (simp [isDirectPrimitive] at hprim)

theorem descStep_type (f : StructField) (item : Property) :
    (if tagGet f.tag "description" ≠ "" then
        item.withDescription (tagGet f.tag "description") else item).type = item.type := by
  split <;> simp

theorem descStep_TreeInv (f : StructField) (item : Property) (h : TreeInv item) :
    TreeInv (if tagGet f.tag "description" ≠ "" then
        item.withDescription (tagGet f.tag "description") else item) := by
  split
  · exact TreeInv_withDescription _ h
  · exact h

theorem defaultStep_TreeInv (f : StructField) (item2 item3 : Property)
    (hInv : TreeInv item2)
    (hD : (if tagGet f.tag "default" ≠ "" then
        defaultConvert f.type (tagGet f.tag "default") >>= fun x =>
          Except.ok (item2.withDefault x)
      else Except.ok item2) = Except.ok item3) :
    TreeInv item3 := by
  split at hD
  · obtain ⟨x, hdc, hok⟩ := bind_ok_inv _ _ _ hD
    simp only [Except.ok.injEq] at hok
    rw [← hok]
    exact TreeInv_withDefault x hInv
  · simp only [Except.ok.injEq] at hD
    rw [← hD]
    exact hInv

/-- The tag-application step preserves the tree invariant: the description
and default steps never touch the constrained slots, and the enum step only
fires on direct-primitive kinds, whose base property is not object-kind. -/
theorem applyTags_TreeInv (f : StructField) (item : Property)
    (name : String) (r : Bool) (item' : Property)
    (hitem : reflectSchemaByType f.type = .ok item)
    (hInv : TreeInv item)
    (happ : applyTags f item = .ok (name, r, item')) : TreeInv item' := by
  simp only [applyTags] at happ
  obtain ⟨r0, hR, h1⟩ := bind_ok_inv _ _ _ happ
  have hInv1 := descStep_TreeInv f item hInv
  by_cases hv : tagGet f.tag "enum" = ""
  · rw [if_neg (by simp [hv])] at h1
    simp only [okBind] at h1
    obtain ⟨item3, hD, h3⟩ := bind_ok_inv _ _ _ h1
    simp only [Except.ok.injEq, Prod.mk.injEq] at h3
    rw [← h3.2.2]
    exact defaultStep_TreeInv f _ item3 hInv1 hD
  · rw [if_pos hv] at h1
    simp only [bindAssoc] at h1
    obtain ⟨vals, hmapM, h2⟩ := bind_ok_inv _ _ _ h1
    simp only [okBind] at h2
    obtain ⟨item3, hD, h3⟩ := bind_ok_inv _ _ _ h2
    simp only [Except.ok.injEq, Prod.mk.injEq] at h3
    -- the first converted literal shows the field kind is a direct primitive
    obtain ⟨c, cs, hsplit⟩ : ∃ c cs, goSplit (tagGet f.tag "enum") = c :: cs := by
      cases hs : goSplit (tagGet f.tag "enum") with
      | nil => exact absurd hs (goSplit_ne_nil _)
      | cons c cs => exact ⟨c, cs, rfl⟩
    rw [hsplit, mapM_cons] at hmapM
    obtain ⟨val, hconv, _⟩ := bind_ok_inv _ _ _ hmapM
    have hprim := enumConvert_ok_prim f.type (goTrim c) val hconv
    have hshape := byType_prim_shape f.type hprim item hitem
    have hnonobj : (if tagGet f.tag "description" ≠ "" then
        item.withDescription (tagGet f.tag "description") else item).type ≠
          DataType.object := by
      rw [descStep_type]
      exact hshape.1
    rw [← h3.2.2]
    exact defaultStep_TreeInv f _ item3 (TreeInv_withEnum_nonobj vals hnonobj hInv1) hD

theorem mapSet_forall {P : Property → Prop} (props : List (String × Property))
    (k : String) (v : Property)
    (hall : ∀ kv ∈ props, P kv.2) (hv : P v) :
    ∀ kv ∈ mapSet props k v, P kv.2 := by
  by_cases hk : mapHas props k = true
  · rw [mapSet, if_pos hk]
    intro kv hkv
    obtain ⟨p, hp, hkv⟩ := List.mem_map.mp hkv
    by_cases hpk : (p.1 == k) = true
    · rw [if_pos hpk] at hkv
      rw [← hkv]
      exact hv
    · rw [if_neg hpk] at hkv
      rw [← hkv]
      exact hall p hp
  · rw [mapSet_absent props k v (by simpa using hk)]
    intro kv hkv
    rcases List.mem_append.mp hkv with hkv | hkv
    · exact hall kv hkv
    · have : kv = (k, v) := by simpa using hkv
      rw [this]
      exact hv

mutual
theorem treeInv_byType (t : GoType) :
    ∀ p, reflectSchemaByType t = .ok p → TreeInv p := by
  cases t with
  | slice e =>
    intro p h
    simp only [reflectSchemaByType] at h
    obtain ⟨items, hit, hok⟩ := bind_ok_inv _ _ _ h
    simp only [Except.ok.injEq] at hok
    subst hok
    have hchild := treeInv_byType e items hit
    refine TreeInv.node _ ?_ ?_ ?_
    · intro ht; simp [Property.type] at ht
    · intro q hq
      simp only [Property.items, Option.some.injEq] at hq
      rw [← hq]
      exact hchild
    · intro n q hq
      simp [Property.properties] at hq
  | array sz e =>
    intro p h
    simp only [reflectSchemaByType] at h
    obtain ⟨items, hit, hok⟩ := bind_ok_inv _ _ _ h
    simp only [Except.ok.injEq] at hok
    subst hok
    have hchild := treeInv_byType e items hit
    refine TreeInv.node _ ?_ ?_ ?_
    · intro ht; simp [Property.type] at ht
    · intro q hq
      simp only [Property.items, Option.some.injEq] at hq
      rw [← hq]
      exact hchild
    · intro n q hq
      simp [Property.properties] at hq
  | struct fields =>
    intro p h
    simp only [reflectSchemaByType] at h
    obtain ⟨object, hobj, hok⟩ := bind_ok_inv _ _ _ h
    simp only [Except.ok.injEq] at hok
    subst hok
    obtain ⟨hInv, hty, hit, hen, hpr, hrq⟩ := treeInv_objectFields fields object hobj
    obtain ⟨hok2, hitc, hprc⟩ := hInv.inv
    refine TreeInv.node _ ?_ ?_ ?_
    · intro _
      refine ⟨by simp [hit], by simp [hen], ?_⟩
      simp only [withType_properties, withType_required]
      obtain ⟨a, ha⟩ := Option.isSome_iff_exists.mp hpr
      obtain ⟨b, hb⟩ := Option.isSome_iff_exists.mp hrq
      simp [ha, hb]
    · intro q hq
      simp only [withType_items] at hq
      exact hitc q hq
    · intro n q hq
      simp only [withType_properties] at hq
      exact hprc n q hq
  | map k v =>
    intro p h
    cases k <;>
      first
      | (simp only [reflectSchemaByType, Except.ok.injEq] at h
         subst h
         refine TreeInv.node _ ?_ ?_ ?_
         · intro _
           exact ⟨rfl, rfl, by simp [Property.properties, Property.required]⟩
         · intro q hq
           simp [Property.items] at hq
         · intro n q hq
           simp [Property.properties] at hq)
      | simp [reflectSchemaByType] at h
  | ptr e =>
    intro p h
    simp only [reflectSchemaByType] at h
    exact treeInv_byType e p h
  | string =>
    intro p h
    simp only [reflectSchemaByType, Except.ok.injEq] at h
    subst h
    refine TreeInv.node _ (by intro ht; simp [Property.type] at ht) ?_ ?_
    · intro q hq; simp [Property.items] at hq
    · intro n q hq; simp [Property.properties] at hq
  | int =>
    intro p h
    simp only [reflectSchemaByType, Except.ok.injEq] at h
    subst h
    refine TreeInv.node _ (by intro ht; simp [Property.type] at ht) ?_ ?_
    · intro q hq; simp [Property.items] at hq
    · intro n q hq; simp [Property.properties] at hq
  | int8 =>
    intro p h
    simp only [reflectSchemaByType, Except.ok.injEq] at h
    subst h
    refine TreeInv.node _ (by intro ht; simp [Property.type] at ht) ?_ ?_
    · intro q hq; simp [Property.items] at hq
    · intro n q hq; simp [Property.properties] at hq
  | int16 =>
    intro p h
    simp only [reflectSchemaByType, Except.ok.injEq] at h
    subst h
    refine TreeInv.node _ (by intro ht; simp [Property.type] at ht) ?_ ?_
    · intro q hq; simp [Property.items] at hq
    · intro n q hq; simp [Property.properties] at hq
  | int32 =>
    intro p h
    simp only [reflectSchemaByType, Except.ok.injEq] at h
    subst h
    refine TreeInv.node _ (by intro ht; simp [Property.type] at ht) ?_ ?_
    · intro q hq; simp [Property.items] at hq
    · intro n q hq; simp [Property.properties] at hq
  | int64 =>
    intro p h
    simp only [reflectSchemaByType, Except.ok.injEq] at h
    subst h
    refine TreeInv.node _ (by intro ht; simp [Property.type] at ht) ?_ ?_
    · intro q hq; simp [Property.items] at hq
    · intro n q hq; simp [Property.properties] at hq
  | uint =>
    intro p h
    simp only [reflectSchemaByType, Except.ok.injEq] at h
    subst h
    refine TreeInv.node _ (by intro ht; simp [Property.type] at ht) ?_ ?_
    · intro q hq; simp [Property.items] at hq
    · intro n q hq; simp [Property.properties] at hq
  | uint8 =>
    intro p h
    simp only [reflectSchemaByType, Except.ok.injEq] at h
    subst h
    refine TreeInv.node _ (by intro ht; simp [Property.type] at ht) ?_ ?_
    · intro q hq; simp [Property.items] at hq
    · intro n q hq; simp [Property.properties] at hq
  | uint16 =>
    intro p h
    simp only [reflectSchemaByType, Except.ok.injEq] at h
    subst h
    refine TreeInv.node _ (by intro ht; simp [Property.type] at ht) ?_ ?_
    · intro q hq; simp [Property.items] at hq
    · intro n q hq; simp [Property.properties] at hq
  | uint32 =>
    intro p h
    simp only [reflectSchemaByType, Except.ok.injEq] at h
    subst h
    refine TreeInv.node _ (by intro ht; simp [Property.type] at ht) ?_ ?_
    · intro q hq; simp [Property.items] at hq
    · intro n q hq; simp [Property.properties] at hq
  | uint64 =>
    intro p h
    simp only [reflectSchemaByType, Except.ok.injEq] at h
    subst h
    refine TreeInv.node _ (by intro ht; simp [Property.type] at ht) ?_ ?_
    · intro q hq; simp [Property.items] at hq
    · intro n q hq; simp [Property.properties] at hq
  | float32 =>
    intro p h
    simp only [reflectSchemaByType, Except.ok.injEq] at h
    subst h
    refine TreeInv.node _ (by intro ht; simp [Property.type] at ht) ?_ ?_
    · intro q hq; simp [Property.items] at hq
    · intro n q hq; simp [Property.properties] at hq
  | float64 =>
    intro p h
    simp only [reflectSchemaByType, Except.ok.injEq] at h
    subst h
    refine TreeInv.node _ (by intro ht; simp [Property.type] at ht) ?_ ?_
    · intro q hq; simp [Property.items] at hq
    · intro n q hq; simp [Property.properties] at hq
  | bool =>
    intro p h
    simp only [reflectSchemaByType, Except.ok.injEq] at h
    subst h
    refine TreeInv.node _ (by intro ht; simp [Property.type] at ht) ?_ ?_
    · intro q hq; simp [Property.items] at hq
    · intro n q hq; simp [Property.properties] at hq
  | chan => intro p h; simp [reflectSchemaByType] at h
  | func => intro p h; simp [reflectSchemaByType] at h
  | iface => intro p h; simp [reflectSchemaByType] at h
  | complex64 => intro p h; simp [reflectSchemaByType] at h
  | complex128 => intro p h; simp [reflectSchemaByType] at h
  | uintptr => intro p h; simp [reflectSchemaByType] at h
  | rawPointer => intro p h; simp [reflectSchemaByType] at h
termination_by 4 * sizeOf t
decreasing_by all_goals (simp_wf; try omega)

theorem treeInv_objectFields (fields : List StructField) :
    ∀ p, reflectObjectFields fields = .ok p →
      TreeInv p ∧ p.type = DataType.object ∧ p.items = none ∧ p.enum = none ∧
        p.properties.isSome = true ∧ p.required.isSome = true := by
  intro p h
  rw [reflectObjectFields_eq] at h
  obtain ⟨pr, hE, h1⟩ := bind_ok_inv _ _ _ h
  obtain ⟨pr2, hA, h2⟩ := bind_ok_inv _ _ _ h1
  simp only [Except.ok.injEq] at h2
  subst h2
  have hallE := treeInv_explicit fields [] [] pr.1 pr.2 (by intro kv hkv; simp at hkv)
    (by cases pr; exact hE)
  have hallA := treeInv_anon (fields.filter fun f => f.anonymous) pr.1 pr.2 pr2.1 pr2.2
    hallE (by cases pr2; exact hA)
  refine ⟨?_, rfl, rfl, rfl, rfl, rfl⟩
  refine TreeInv.node _ ?_ ?_ ?_
  · intro _
    exact ⟨rfl, rfl, by simp [Property.properties, Property.required]⟩
  · intro q hq
    simp [Property.items] at hq
  · intro n q hq
    simp only [Property.properties, Option.getD] at hq
    exact hallA (n, q) hq
termination_by 4 * sizeOf fields + 3
decreasing_by
  all_goals simp_wf
  all_goals (have hf := sizeOf_filter_le (fun f : StructField => f.anonymous) fields; omega)

theorem treeInv_explicit (fields : List StructField) :
    ∀ props req props' req',
      (∀ kv ∈ props, TreeInv kv.2) →
      reflectExplicit fields props req = .ok (props', req') →
      ∀ kv ∈ props', TreeInv kv.2 := by
  cases fields with
  | nil =>
    intro props req props' req' hall h
    rw [reflectExplicit_nil] at h
    simp only [Except.ok.injEq, Prod.mk.injEq] at h
    rw [← h.1]
    exact hall
  | cons f rest =>
    intro props req props' req' hall h
    by_cases h1 : f.anonymous = true
    · rw [reflectExplicit_cons_skip f _ _ _ (Or.inl h1)] at h
      exact treeInv_explicit rest _ _ _ _ hall h
    · by_cases h2 : isExported f.name = true
      · by_cases h3 : tagGet f.tag "json" = "-"
        · rw [reflectExplicit_cons_skip f _ _ _ (Or.inr (Or.inr h3))] at h
          exact treeInv_explicit rest _ _ _ _ hall h
        · rw [reflectExplicit_cons_go f _ _ _ (by simpa using h1) h2 h3] at h
          cases hA : reflectSchemaByType f.type with
          | error e => simp [hA] at h
          | ok item =>
            rw [hA] at h
            simp only [okBind] at h
            cases hB : applyTags f item with
            | error e => simp [hB] at h
            | ok r =>
              rw [hB] at h
              simp only [okBind] at h
              have hszf : sizeOf f.type < sizeOf f := StructField.sizeOf_type_lt f
              have hitem := treeInv_byType f.type item hA
              have hitem' := applyTags_TreeInv f item r.1 r.2.1 r.2.2 hA hitem
                (by rw [hB])
              exact treeInv_explicit rest _ _ _ _
                (mapSet_forall props r.1 r.2.2 hall hitem') h
      · rw [reflectExplicit_cons_skip f _ _ _ (Or.inr (Or.inl (by simpa using h2)))] at h
        exact treeInv_explicit rest _ _ _ _ hall h
termination_by 4 * sizeOf fields + 1
decreasing_by all_goals (simp_wf; try omega)

theorem treeInv_anon (afields : List StructField) :
    ∀ props req props' req',
      (∀ kv ∈ props, TreeInv kv.2) →
      reflectAnon afields props req = .ok (props', req') →
      ∀ kv ∈ props', TreeInv kv.2 := by
  cases afields with
  | nil =>
    intro props req props' req' hall h
    rw [reflectAnon_nil] at h
    simp only [Except.ok.injEq, Prod.mk.injEq] at h
    rw [← h.1]
    exact hall
  | cons f rest =>
    intro props req props' req' hall h
    rw [reflectAnon_cons] at h
    cases hO : reflectSchemaByObject f.type with
    | error e => simp [hO] at h
    | ok object =>
      rw [hO] at h
      simp only [okBind] at h
      cases hM : mergeProps (object.properties.getD []) props with
      | error e => simp [hM] at h
      | ok props2 =>
        rw [hM] at h
        simp only [okBind] at h
        obtain ⟨fields2, hft, hObj⟩ := reflectSchemaByObject_ok_struct f.type object hO
        have hsz : sizeOf fields2 < sizeOf f := by
          have hlt := StructField.sizeOf_type_lt f
          rw [hft] at hlt
          simp at hlt
          omega
        obtain ⟨hInvO, _, _, _, _, _⟩ := treeInv_objectFields fields2 object hObj
        have hemInv : ∀ kv ∈ object.properties.getD [], TreeInv kv.2 := by
          intro kv hkv
          exact hInvO.inv.2.2 kv.1 kv.2 (by simpa using hkv)
        obtain ⟨habsent, hprops2⟩ := mergeProps_ok (object.properties.getD []) props
          props2 hM
        have hall2 : ∀ kv ∈ props2, TreeInv kv.2 := by
          intro kv hkv
          rw [hprops2] at hkv
          rcases List.mem_append.mp hkv with hkv | hkv
          · exact hall kv hkv
          · exact hemInv kv hkv
        exact treeInv_anon rest _ _ _ _ hall2 h
termination_by 4 * sizeOf afields + 2
decreasing_by all_goals (simp_wf; try omega)
end

/-- C6 (amended): throughout every derived schema tree, object-kind nodes
never carry `items` or `enum`, and declare `properties` exactly when they
declare `required`: record-derived object nodes declare both (possibly
empty), while string-keyed-map-derived object nodes declare neither; a
`default` tag may attach a default value to an object node.  (The original
claim — properties/required always defined and no default, including
map-derived objects — fails on the counterexample.) -/
theorem C6_object_invariant :
    (∀ t p, reflectSchemaByType t = .ok p → TreeInv p) ∧
    (∀ fields p, reflectObjectFields fields = .ok p →
      p.type = DataType.object ∧ p.items = none ∧ p.enum = none ∧
      p.properties.isSome = true ∧ p.required.isSome = true) := by
  constructor
  · exact treeInv_byType
  · intro fields p h
    obtain ⟨_, hty, hit, hen, hpr, hrq⟩ := treeInv_objectFields fields p h
    exact ⟨hty, hit, hen, hpr, hrq⟩

/-- Witness for C6: the invariant holds at a concrete struct with a nested
struct and a string-keyed map field. -/
theorem C6_object_invariant_witness :
    reflectSchemaByType
        (.struct [ .mk "Inner" false [] (.struct [ .mk "X" false [] .string ]),
                   .mk "M" false [] (.map .string .int) ]) =
      .ok (.mk .object "" none
        (some [("Inner", .mk .object "" none
                  (some [("X", .mk .string "" none none none none none)])
                  (some ["X"]) none none),
               ("M", .mk .object "" none none none none none)])
        (some ["Inner", "M"]) none none) ∧
    TreeInv (.mk .object "" none
        (some [("Inner", .mk .object "" none
                  (some [("X", .mk .string "" none none none none none)])
                  (some ["X"]) none none),
               ("M", .mk .object "" none none none none none)])
        (some ["Inner", "M"]) none none) := by
  have h : reflectSchemaByType
        (.struct [ .mk "Inner" false [] (.struct [ .mk "X" false [] .string ]),
                   .mk "M" false [] (.map .string .int) ]) =
      .ok (.mk .object "" none
        (some [("Inner", .mk .object "" none
                  (some [("X", .mk .string "" none none none none none)])
                  (some ["X"]) none none),
               ("M", .mk .object "" none none none none none)])
        (some ["Inner", "M"]) none none) := by
    simp [reflectSchemaByType, reflectObjectFields, reflectExplicit, reflectAnon,
      reflectSchemaByObject, applyTags, fieldNaming, tagGet, isExported, mapSet, mapHas,
      mergeProps, enumConvert, defaultConvert, Property.withDescription, Property.withType,
      StructField.name, StructField.anonymous, StructField.tag, StructField.type,
      List.find?, List.filter, goParseBool, goHasSuffix, goTrimSuffix, dropPrefixChars]
  exact ⟨h, C6_object_invariant.1 _ _ h⟩

/-- Counterexample to C6 as stated: a string-keyed map field with a `default`
tag produces an object-kind node whose `properties` and `required` are NOT
defined (nil, not empty) and whose `default` IS set — the derived tree
contains an object node violating both parts of the original claim. -/
theorem C6_counterexample :
    reflectObjectFields [ .mk "M" false [("default", "x")] (.map .string .int) ] =
      .ok (.mk .object "" none
        (some [("M", .mk .object "" none none none none (some (.str "x")))])
        (some ["M"]) none none) ∧
    (Property.mk .object "" none none none none (some (Value.str "x"))).type =
      DataType.object ∧
    (Property.mk .object "" none none none none (some (Value.str "x"))).properties = none ∧
    (Property.mk .object "" none none none none (some (Value.str "x"))).required = none ∧
    (Property.mk .object "" none none none none (some (Value.str "x"))).defaultVal ≠ none := by
  refine ⟨?_, rfl, rfl, rfl, by simp [Property.defaultVal]⟩
  simp [reflectObjectFields, reflectExplicit, reflectAnon, reflectSchemaByType, applyTags,
    fieldNaming, tagGet, isExported, mapSet, mapHas, mergeProps, enumConvert, defaultConvert,
    Property.withDescription, Property.withDefault, StructField.name, StructField.anonymous,
    StructField.tag, StructField.type, List.find?, List.filter, goParseBool, goHasSuffix,
    goTrimSuffix, dropPrefixChars]

end SchemaGen
